import Mathlib

/-!
# MP3 tag reader: ID3v2.3 size codec, tag reader, tag writer and tag editor

A shallow embedding of `id3_reader.c`, `id3_writer.c` and `main.c`: the macros `GET_SIZE`
and `FIX_SIZE` and the functions `read_id3_tags`, `view_tags`, `write_id3_tags`, `edit_tag`
and `main`.  What the functions print is left out, except the `Tag ... not found.` line
of `edit_tag`.

* A byte is a natural number; a file is the list of its bytes, and an open stream is
  the list of bytes that have not been read yet.
* A C string argument is the list of bytes stored at the pointer; the string ends at
  the first NUL (`cstr`), so a NUL-free list is a string equal to itself.
* A local array or a heap block is a list of cells, `none` standing for a cell that
  was never written.  Reading such a cell, or a cell outside the block, makes the
  call `Outcome.undefined`.
* The environment (`Env`) decides whether `malloc`, `calloc`, the creation of
  `temp.mp3` and `rename` succeed, and which file names denote the file `temp.mp3`.
* `unsigned int` arithmetic is arithmetic modulo `2 ^ 32`.
-/

namespace Mp3TagReader

/-! ## C strings, buffers, outcomes -/

/-- Characters of the C string stored at `s`: the bytes before the first NUL. -/
def cstr (s : List Nat) : List Nat := s.takeWhile (fun b => b != 0)

/-- The C library call `strlen(s)`. -/
def strlen (s : List Nat) : Nat := (cstr s).length

/-- The test `strcmp(a, b) == 0`. -/
def strcmp_eq (a b : List Nat) : Bool := cstr a == cstr b

/-- Storing the items `got` at the start of the buffer `buf`; the cells after them keep
what they held.  This is what `fread(buf, 1, n, f)` does with the bytes it obtains. -/
def overwrite {α : Type} (buf got : List α) : List α := got ++ buf.drop got.length

/-- The bytes of a buffer all of whose cells were written, `none` if one was not. -/
def defined_bytes : List (Option Nat) → Option (List Nat)
  | [] => some []
  | none :: _ => none
  | some b :: rest => (defined_bytes rest).map (fun l => b :: l)

/-- The C string read from the start of a block of cells: `none` when the scan meets a
cell that was never written or leaves the block before it meets a NUL. -/
def cstr_at : List (Option Nat) → Option (List Nat)
  | [] => none
  | none :: _ => none
  | some b :: rest => if b = 0 then some [] else (cstr_at rest).map (fun l => b :: l)

/-- How a call ends. -/
inductive Outcome (α : Type) where
  /-- The call returns `a`. -/
  | ret (a : α)
  /-- The call reads a cell that was never written or lies outside its block. -/
  | undefined
  /-- The loop bound of the embedding is exhausted (shown not to happen). -/
  | nofuel
  deriving DecidableEq

/-- One pass through a loop body: go on with a new state or leave with a result. -/
inductive Step (σ ρ : Type) where
  | next (s : σ)
  | stop (r : ρ)

/-- What the environment grants to a call. -/
structure Env where
  /-- Whether `malloc(n)` (also the one inside `strdup`) returns a block. -/
  malloc : Nat → Bool
  /-- Whether `calloc(1, sizeof(TagData))` returns a block. -/
  calloc : Bool
  /-- Whether `fopen("temp.mp3", "wb")` succeeds. -/
  fopen_temp : Bool
  /-- Whether `rename("temp.mp3", filename)` succeeds. -/
  rename : Bool
  /-- Whether a file name other than "temp.mp3" denotes the same file as "temp.mp3" (by
  another path or a link). -/
  same_file : List Char → Bool

/-- An environment in which no allocation and no file operation fails, and in which only
the name "temp.mp3" denotes that file. -/
def Env.ideal : Env := ⟨fun _ => true, true, true, true, fun _ => false⟩

/-- No allocation and no file operation fails. -/
def Env.NoFailure (env : Env) : Prop :=
  (∀ n, env.malloc n = true) ∧ env.calloc = true ∧ env.fopen_temp = true ∧ env.rename = true

/-- The C library call `strdup(s)` on a string with characters `s`: `NULL` when its
allocation fails. -/
def strdup (env : Env) (s : List Nat) : Option (List Nat) :=
  if env.malloc (s.length + 1) then some s else none

/-! ## Size codec (`GET_SIZE`, `FIX_SIZE`) -/

/-- The macro `GET_SIZE(size)` of both C files, its value converted to `unsigned int`. -/
def GET_SIZE (size : List Nat) : Nat :=
  (((size.getD 0 0 &&& 0xFF) <<< 24) |||
   ((size.getD 1 0 &&& 0xFF) <<< 16) |||
   ((size.getD 2 0 &&& 0xFF) <<< 8) |||
   (size.getD 3 0 &&& 0xFF)) % 2 ^ 32

/-- The macro `FIX_SIZE(size, new_len)`: the four bytes it stores in `size`. -/
def FIX_SIZE (new_len : Nat) : List Nat :=
  [(new_len >>> 24) &&& 0xFF, (new_len >>> 16) &&& 0xFF, (new_len >>> 8) &&& 0xFF,
   new_len &&& 0xFF]

/-! ## Tag data and frame identifiers -/

/-- Modelled from the spec: the struct `TagData` is declared in `id3_utils.h`, which is
not among the sources.  The spec gives it six optional text values; the C code uses
them as the `char *` members `title`, `artist`, `album`, `year`, `genre`, `comment`,
`NULL` standing for an absent value. -/
structure TagData where
  title : Option (List Nat)
  artist : Option (List Nat)
  album : Option (List Nat)
  year : Option (List Nat)
  genre : Option (List Nat)
  comment : Option (List Nat)
  deriving DecidableEq

/-- The record `calloc` returns: every member `NULL`. -/
def TagData.empty : TagData := ⟨none, none, none, none, none, none⟩

/-- The bytes of `"ID3"`. -/
def ID3 : List Nat := [73, 68, 51]
/-- The bytes of `"TIT2"`. -/
def TIT2 : List Nat := [84, 73, 84, 50]
/-- The bytes of `"TPE1"`. -/
def TPE1 : List Nat := [84, 80, 69, 49]
/-- The bytes of `"TALB"`. -/
def TALB : List Nat := [84, 65, 76, 66]
/-- The bytes of `"TYER"`. -/
def TYER : List Nat := [84, 89, 69, 82]
/-- The bytes of `"TCON"`. -/
def TCON : List Nat := [84, 67, 79, 78]
/-- The bytes of `"COMM"`. -/
def COMM : List Nat := [67, 79, 77, 77]

/-! ## `read_id3_tags` -/

/-- The locals of `read_id3_tags` that live across iterations of its loop, and the
stream position. -/
structure ReadState where
  data : TagData
  frame_size : List (Option Nat)
  frame_flags : List (Option Nat)
  rem : List Nat

/-- The body of the `while` loop of `read_id3_tags`, its test included. -/
def read_frame (env : Env) (st : ReadState) : Step ReadState (Outcome (Option TagData)) :=
  let frame_id := st.rem.take 4
  if frame_id.length ≠ 4 then .stop (.ret (some st.data))
  else
    let rem := st.rem.drop 4
    let frame_size := overwrite st.frame_size ((rem.take 4).map some)
    let rem := rem.drop 4
    match defined_bytes frame_size with
    | none => .stop .undefined
    | some size =>
      let frame_data_size := GET_SIZE size
      let frame_flags := overwrite st.frame_flags ((rem.take 2).map some)
      let rem := rem.drop 2
      let n := (frame_data_size + 1) % 2 ^ 32
      if !env.malloc n then .stop (.ret none)
      else if n ≤ frame_data_size then .stop .undefined
      else
        let frame_data :=
          (overwrite (List.replicate n none) ((rem.take frame_data_size).map some)).set
            frame_data_size (some 0)
        let rem := rem.drop frame_data_size
        let text := cstr_at (frame_data.drop 1)
        let go (data : TagData) : Step ReadState (Outcome (Option TagData)) :=
          .next ⟨data, frame_size, frame_flags, rem⟩
        if strcmp_eq frame_id TIT2 then
          match text with
          | none => .stop .undefined
          | some s => go { st.data with title := strdup env s }
        else if strcmp_eq frame_id TPE1 then
          match text with
          | none => .stop .undefined
          | some s => go { st.data with artist := strdup env s }
        else if strcmp_eq frame_id TALB then
          match text with
          | none => .stop .undefined
          | some s => go { st.data with album := strdup env s }
        else if strcmp_eq frame_id TYER then
          match text with
          | none => .stop .undefined
          | some s => go { st.data with year := strdup env s }
        else if strcmp_eq frame_id TCON then
          match text with
          | none => .stop .undefined
          | some s => go { st.data with genre := strdup env s }
        else go st.data

/-- The `while` loop of `read_id3_tags`, run for at most `fuel` iterations. -/
def read_frames (env : Env) : Nat → ReadState → Outcome (Option TagData)
  | 0, _ => .nofuel
  | fuel + 1, st =>
    match read_frame env st with
    | .stop r => r
    | .next st1 => read_frames env fuel st1

/-- The extension test of `read_id3_tags`:
`!(len < 4 || strcmp(&filename[len - 4], ".mp3") != 0)`. -/
def mp3_extension (filename : List Char) : Bool :=
  !(decide (filename.length < 4) ||
    filename.drop (filename.length - 4) != ['.', 'm', 'p', '3'])

/-- The part of `read_id3_tags` after the test of the first three bytes: version test,
extension test, `fseek` to offset 10, `calloc`, frame loop. -/
def read_after_magic (env : Env) (filename : List Char) (bytes : List Nat) :
    Outcome (Option TagData) :=
  let vers := overwrite [none, none] (((bytes.drop 3).take 2).map some)
  match vers.head? with
  | some (some v0) =>
    if v0 ≠ 3 then .ret none
    else if !mp3_extension filename then .ret none
    else if !env.calloc then .ret none
    else
      read_frames env (bytes.length + 1)
        ⟨TagData.empty, List.replicate 4 none, List.replicate 2 none, bytes.drop 10⟩
  | _ => .undefined

/-- The function `read_id3_tags(filename)`.  `file` is the content of the file called
`filename`, `none` when it cannot be opened; the value returned is `none` for `NULL`. -/
def read_id3_tags (env : Env) (filename : List Char) (file : Option (List Nat)) :
    Outcome (Option TagData) :=
  match file with
  | none => .ret none
  | some bytes =>
    let id3 := overwrite (List.replicate 4 0) (bytes.take 3)
    if !strcmp_eq id3 ID3 then .ret none
    else read_after_magic env filename bytes

/-! ## `write_id3_tags` and `edit_tag` -/

/-- The name of the file both functions open for writing: "temp.mp3". -/
def temp_name : List Char := ['t', 'e', 'm', 'p', '.', 'm', 'p', '3']

/-- Whether `filename` denotes the file `temp.mp3`: the name "temp.mp3" does, and the
environment tells for any other name. -/
def is_temp (env : Env) (filename : List Char) : Bool :=
  filename == temp_name || env.same_file filename

/-- What the stream opened on `filename` for reading delivers once
`fopen("temp.mp3", "wb")` has succeeded: the content of the file, or nothing when
`filename` denotes `temp.mp3`, which that call has emptied before the first read. -/
def source_after_temp (env : Env) (filename : List Char) (content : List Nat) : List Nat :=
  if is_temp env filename then [] else content

/-- What a call of `write_id3_tags` or `edit_tag` leaves behind.  When `filename` denotes
`temp.mp3` the two are one file, and `file` is what that file holds after the call. -/
structure Effect where
  /-- The value returned. -/
  code : Nat
  /-- The content of the file called `filename` after the call (`none`: no such file). -/
  file : Option (List Nat)
  /-- The bytes the call wrote to `temp.mp3` and left there (`none`: it did not create
  `temp.mp3`, or renamed it to `filename`). -/
  temp : Option (List Nat)
  /-- Whether the call printed `Tag ... not found.` -/
  not_found : Bool
  deriving DecidableEq

/-- One pass of the `for` loop of `write_id3_tags` for a member that is not `NULL`: the
bytes written for the frame `id` with text `value`. -/
def write_frame (id value : List Nat) : List Nat :=
  let frame_size := (strlen value + 1) % 2 ^ 32
  let frame_header :=
    id.take 4 ++
    [(frame_size >>> 24) &&& 0xFF, (frame_size >>> 16) &&& 0xFF,
     (frame_size >>> 8) &&& 0xFF, frame_size &&& 0xFF] ++ [0, 0]
  frame_header ++ [0] ++ (cstr value).take ((frame_size + 2 ^ 32 - 1) % 2 ^ 32)

/-- The table `frames[]` of `write_id3_tags`. -/
def frames (data : TagData) : List (List Nat × Option (List Nat)) :=
  [(TIT2, data.title), (TPE1, data.artist), (TALB, data.album), (TYER, data.year),
   (TCON, data.genre), (COMM, data.comment)]

/-- The `for` loop of `write_id3_tags`: the bytes it appends to `out`. -/
def write_frames (data : TagData) (out : List Nat) : List Nat :=
  (frames data).foldl
    (fun out fr => match fr.2 with
      | some value => out ++ write_frame fr.1 value
      | none => out) out

/-- The copy loop of `write_id3_tags`: chunks of at most 1024 bytes are read from `rem`
and appended to `out` until a read returns nothing. -/
def copy_rest : Nat → List Nat → List Nat → Outcome (List Nat)
  | 0, _, _ => .nofuel
  | fuel + 1, rem, out =>
    let buffer := rem.take 1024
    if buffer.length > 0 then copy_rest fuel (rem.drop 1024) (out ++ buffer)
    else .ret out

/-- The function `write_id3_tags(filename, data)` for non-null arguments.  `file` is
the content of the file called `filename`, `none` when it cannot be opened.  The source
is opened before `temp.mp3` is, and read after. -/
def write_id3_tags (env : Env) (filename : List Char) (file : Option (List Nat))
    (data : TagData) : Outcome Effect :=
  match file with
  | none => .ret ⟨1, none, none, false⟩
  | some content =>
    if !env.fopen_temp then .ret ⟨1, some content, none, false⟩
    else
      let src := source_after_temp env filename content
      let got := src.take 10
      let id3_header := overwrite (List.replicate 10 0) got
      let id3_header :=
        if got.length ≠ 10 then overwrite id3_header [73, 68, 51, 3, 0] else id3_header
      match copy_rest (src.length + 1) (src.drop 10) (write_frames data id3_header) with
      | .nofuel => .nofuel
      | .undefined => .undefined
      | .ret temp =>
        if !env.rename then
          .ret ⟨1, some (if is_temp env filename then temp else content), some temp, false⟩
        else .ret ⟨0, some temp, none, false⟩

/-- The locals of `edit_tag` that live across iterations of its loop, the position in
the source and the bytes written to `temp.mp3` so far. -/
structure EditState where
  frame_size : List (Option Nat)
  frame_flags : List (Option Nat)
  modified : Bool
  rem : List Nat
  out : List Nat

/-- How the loop of `edit_tag` is left. -/
inductive EditStop where
  /-- `fread` obtained fewer than 4 bytes for the frame ID. -/
  | eof (st : EditState)
  /-- `malloc` returned `NULL`. -/
  | nomem (st : EditState)
  /-- A cell that was never written is read or written to the file. -/
  | undefined
  /-- The loop bound of the embedding is exhausted (shown not to happen). -/
  | nofuel

/-- The body of the `while` loop of `edit_tag`, its test included. -/
def edit_frame (env : Env) (tag value : List Nat) (st : EditState) :
    Step EditState EditStop :=
  let frame_id := st.rem.take 4
  if frame_id.length ≠ 4 then .stop (.eof st)
  else
    let rem := st.rem.drop 4
    let frame_size := overwrite st.frame_size ((rem.take 4).map some)
    let rem := rem.drop 4
    match defined_bytes frame_size with
    | none => .stop .undefined
    | some size =>
      let frame_data_size := GET_SIZE size
      let frame_flags := overwrite st.frame_flags ((rem.take 2).map some)
      let rem := rem.drop 2
      if !env.malloc frame_data_size then .stop (.nomem st)
      else
        let frame_data :=
          overwrite (List.replicate frame_data_size none)
            ((rem.take frame_data_size).map some)
        let rem := rem.drop frame_data_size
        if !st.modified && strcmp_eq frame_id tag then
          let new_size := (strlen value + 1) % 2 ^ 32
          let frame_size := FIX_SIZE new_size
          match defined_bytes frame_flags with
          | none => .stop .undefined
          | some flags =>
            .next ⟨frame_size.map some, frame_flags, true, rem,
              st.out ++ frame_id ++ frame_size ++ flags ++ [0] ++
                (cstr value).take ((new_size + 2 ^ 32 - 1) % 2 ^ 32)⟩
        else
          match defined_bytes frame_flags, defined_bytes frame_data with
          | some flags, some data =>
            .next ⟨frame_size, frame_flags, st.modified, rem,
              st.out ++ frame_id ++ size ++ flags ++ data⟩
          | _, _ => .stop .undefined

/-- The `while` loop of `edit_tag`, run for at most `fuel` iterations. -/
def edit_frames (env : Env) (tag value : List Nat) : Nat → EditState → EditStop
  | 0, _ => .nofuel
  | fuel + 1, st =>
    match edit_frame env tag value st with
    | .stop r => r
    | .next st1 => edit_frames env tag value fuel st1

/-- The function `edit_tag(filename, tag, value)` for non-null arguments.  `file` is the
content of the file called `filename`, `none` when it cannot be opened.  The reader runs
first; then the source is opened before `temp.mp3` is, and read after. -/
def edit_tag (env : Env) (filename : List Char) (file : Option (List Nat))
    (tag value : List Nat) : Outcome Effect :=
  match read_id3_tags env filename file with
  | .nofuel => .nofuel
  | .undefined => .undefined
  | .ret none => .ret ⟨1, file, none, false⟩
  | .ret (some _) =>
    match file with
    | none => .ret ⟨1, none, none, false⟩
    | some content =>
      if !env.fopen_temp then .ret ⟨1, some content, none, false⟩
      else
        let src := source_after_temp env filename content
        let buffer := overwrite (List.replicate 10 none) ((src.take 10).map some)
        match defined_bytes buffer with
        | none => .undefined
        | some header =>
          match edit_frames env tag value (src.length + 1)
              ⟨List.replicate 4 none, List.replicate 2 none, false, src.drop 10, header⟩ with
          | .nofuel => .nofuel
          | .undefined => .undefined
          | .nomem st =>
            .ret ⟨1, some (if is_temp env filename then st.out else content), some st.out,
              false⟩
          | .eof st =>
            if !env.rename then
              .ret ⟨1, some (if is_temp env filename then st.out else content),
                some st.out, false⟩
            else .ret ⟨0, some st.out, none, !st.modified⟩

/-! ## The file format, as the specification words it -/

/-- Big-endian representation of `n` on four bytes. -/
def be32 (n : Nat) : List Nat :=
  [n / 2 ^ 24 % 256, n / 2 ^ 16 % 256, n / 2 ^ 8 % 256, n % 256]

/-- A frame of the tag: 4-byte ID, 2 flag bytes, payload. -/
structure Frame where
  id : List Nat
  flags : List Nat
  payload : List Nat
  deriving DecidableEq

/-- A frame is complete when its ID has 4 bytes, its flags 2 bytes and the length of
its payload fits the 4-byte size field. -/
def Frame.Complete (f : Frame) : Prop :=
  f.id.length = 4 ∧ f.flags.length = 2 ∧ f.payload.length < 2 ^ 32

instance (f : Frame) : Decidable f.Complete := by
  unfold Frame.Complete; infer_instance

/-- The bytes of a frame in a file: ID, big-endian payload size, flags, payload. -/
def Frame.bytes (f : Frame) : List Nat :=
  f.id ++ be32 f.payload.length ++ f.flags ++ f.payload

/-- The bytes of a sequence of frames. -/
def frame_stream : List Frame → List Nat
  | [] => []
  | f :: fs => f.bytes ++ frame_stream fs

/-- The text frame the writer and the editor produce: encoding byte 0, then the text. -/
def text_frame (id flags text : List Nat) : Frame := ⟨id, flags, 0 :: text⟩

/-- The six members of a tag record. -/
inductive Field where
  | title | artist | album | year | genre | comment
  deriving DecidableEq

/-- The frame ID of a member: TIT2 title, TPE1 artist, TALB album, TYER year,
TCON genre, COMM comment. -/
def Field.id : Field → List Nat
  | .title => TIT2
  | .artist => TPE1
  | .album => TALB
  | .year => TYER
  | .genre => TCON
  | .comment => COMM

/-- The value of a member of a record. -/
def TagData.get (d : TagData) : Field → Option (List Nat)
  | .title => d.title
  | .artist => d.artist
  | .album => d.album
  | .year => d.year
  | .genre => d.genre
  | .comment => d.comment

/-- The record with one member replaced. -/
def TagData.set (d : TagData) (k : Field) (t : Option (List Nat)) : TagData :=
  match k with
  | .title => { d with title := t }
  | .artist => { d with artist := t }
  | .album => { d with album := t }
  | .year => { d with year := t }
  | .genre => { d with genre := t }
  | .comment => { d with comment := t }

/-- The member in which the loop of `read_id3_tags` stores a frame with this ID: its
chain of `strcmp` tests has a branch for five IDs. -/
def decoded_field (id : List Nat) : Option Field :=
  if id = TIT2 then some .title
  else if id = TPE1 then some .artist
  else if id = TALB then some .album
  else if id = TYER then some .year
  else if id = TCON then some .genre
  else none

/-- The frames on which one pass of the reader loop reads only cells it has written:
the payload and its terminator fit a 32-bit allocation size, and a frame that is
stored in a member has a byte at payload offset 0 to skip. -/
def Frame.readable (f : Frame) : Bool :=
  decide (f.payload.length + 1 < 2 ^ 32) && (decoded_field f.id == none || f.payload != [])

/-- The record after one frame: a frame with one of the five stored IDs replaces its
member by the payload text from offset 1 (up to the first NUL), any other frame
leaves the record as it is. -/
def apply_frame (d : TagData) (f : Frame) : TagData :=
  match decoded_field f.id with
  | some k => d.set k (some (cstr (f.payload.drop 1)))
  | none => d

/-- The record after a sequence of frames, `none` when one of them is not readable. -/
def decode : TagData → List Frame → Option TagData
  | d, [] => some d
  | d, f :: fs => if f.readable then decode (apply_frame d f) fs else none

/-- The sequence of frames in which the first frame with ID `tag` has its payload
replaced by the text frame payload for `text`. -/
def edit_first (tag text : List Nat) : List Frame → List Frame
  | [] => []
  | f :: fs =>
    if f.id = tag then text_frame f.id f.flags text :: fs
    else f :: edit_first tag text fs

/-- The frames of a record: one text frame with zero flags for each member that is
present, in the order title, artist, album, year, genre, comment. -/
def record_frames (data : TagData) : List Frame :=
  [Field.title, Field.artist, Field.album, Field.year, Field.genre, Field.comment].filterMap
    (fun k => (data.get k).map (fun text => text_frame k.id [0, 0] text))

/-- The gates of the reader on a 10-byte tag header and a file name: the header starts
with "ID3", its major version byte is 3, and the name ends in ".mp3". -/
def accepted_header (header : List Nat) (filename : List Char) : Bool :=
  header.take 3 == ID3 && header.getD 3 0 == 3 && mp3_extension filename

/-! ## Sample data -/

/-- The file name "a.mp3". -/
def sample_name : List Char := ['a', '.', 'm', 'p', '3']

/-- A tag header: "ID3", major version 3, revision 0, five zero bytes. -/
def sample_header : List Nat := [73, 68, 51, 3, 0, 0, 0, 0, 0, 0]

/-- The bytes of "Song". -/
def text_Song : List Nat := [83, 111, 110, 103]

/-- The bytes of "Old". -/
def text_Old : List Nat := [79, 108, 100]

/-- The bytes of "Two". -/
def text_Two : List Nat := [84, 119, 111]

/-- The bytes of "Hello". -/
def text_Hello : List Nat := [72, 101, 108, 108, 111]

/-- A frame with an ID the reader has no branch for ("XXXX"), flags 1 2, payload 9 8 7. -/
def sample_other : Frame := ⟨[88, 88, 88, 88], [1, 2], [9, 8, 7]⟩

/-- A file with the frames TIT2 "Old" and TIT2 "Two". -/
def sample_duplicate : List Nat :=
  sample_header ++ frame_stream [text_frame TIT2 [0, 0] text_Old, text_frame TIT2 [0, 0] text_Two]

/-- A file with the frames "XXXX", TIT2 "Old" (flags 64 0), TPE1 "Two", TIT2 "Two". -/
def sample_frames : List Frame :=
  [sample_other, text_frame TIT2 [64, 0] text_Old, text_frame TPE1 [0, 0] text_Two,
   text_frame TIT2 [0, 0] text_Two]

/-- A record with title "Song" and comment "Old". -/
def sample_record : TagData := ⟨some text_Song, none, none, none, none, some text_Old⟩

/-! ## `view_tags` and `main` -/

/-- The function `view_tags(filename)`: it prints the record `read_id3_tags` returns, or
that the tags could not be read when it returns `NULL`, and returns nothing. -/
def view_tags (env : Env) (filename : List Char) (file : Option (List Nat)) : Outcome Unit :=
  match read_id3_tags env filename file with
  | .nofuel => .nofuel
  | .undefined => .undefined
  | .ret none => .ret ()
  | .ret (some _) => .ret ()

/-- The chain of `strcmp` tests on `argv[2]` in `main`: the frame ID of an edit option,
`none` for any other option. -/
def tag_option (opt : List Char) : Option (List Nat) :=
  if opt = ['-', 't'] then some TIT2
  else if opt = ['-', 'a'] then some TPE1
  else if opt = ['-', 'A'] then some TALB
  else if opt = ['-', 'y'] then some TYER
  else if opt = ['-', 'g'] then some TCON
  else if opt = ['-', 'c'] then some COMM
  else none

/-- The function `main(argc, argv)`, `argc` being the length of `argv`: its exit status.
`files` gives the content of the file of each name, `none` when it cannot be opened. -/
def main (env : Env) (files : List Char → Option (List Nat)) (argv : List (List Char)) :
    Outcome Nat :=
  let argc := argv.length
  if argc < 2 then .ret 1
  else if argv.getD 1 [] = ['-', 'h'] then .ret 0
  else if argv.getD 1 [] = ['-', 'v'] ∧ argc = 3 then
    match view_tags env (argv.getD 2 []) (files (argv.getD 2 [])) with
    | .nofuel => .nofuel
    | .undefined => .undefined
    | .ret _ => .ret 0
  else if argv.getD 1 [] = ['-', 'e'] ∧ argc = 5 then
    match tag_option (argv.getD 2 []) with
    | none => .ret 1
    | some tag =>
      let value := (argv.getD 3 []).map Char.toNat
      let filename := argv.getD 4 []
      match edit_tag env filename (files filename) tag value with
      | .nofuel => .nofuel
      | .undefined => .undefined
      | .ret done => if done.code ≠ 0 then .ret 1 else .ret 0
  else .ret 1

/-! ## Recognized frames and the last frame of an ID -/

/-- The six frame IDs the specification calls recognized. -/
def recognized : List (List Nat) := [TIT2, TPE1, TALB, TYER, TCON, COMM]

/-- Whether a frame ID is one of the six recognized IDs. -/
def is_recognized (id : List Nat) : Bool := recognized.contains id

/-- The text of the last frame of a sequence that has the ID `id`: its payload from
offset 1 up to the first NUL; `none` when no frame has that ID. -/
def last_text (id : List Nat) : List Frame → Option (List Nat)
  | [] => none
  | f :: fs =>
    (last_text id fs).or (if f.id = id then some (cstr (f.payload.drop 1)) else none)

/-! ## More sample data -/

/-- The name "a.MP3". -/
def sample_upper_name : List Char := ['a', '.', 'M', 'P', '3']

/-- No file can be opened. -/
def no_files : List Char → Option (List Nat) := fun _ => none

/-- A TIT2 frame of declared size 0. -/
def sample_empty_title : Frame := ⟨TIT2, [0, 0], []⟩

/-- A TIT2 frame whose payload is the encoding byte, "A", a NUL and "B". -/
def sample_nul_title : Frame := ⟨TIT2, [0, 0], [0, 65, 0, 66]⟩

/-- A frame with the ID "XXXX", flags 1 2 and an empty payload. -/
def sample_empty_other : Frame := ⟨[88, 88, 88, 88], [1, 2], []⟩

/-- A record with the title "Hello" and nothing else. -/
def sample_title_record : TagData := ⟨some text_Hello, none, none, none, none, none⟩

/-! ## The size codec is big-endian packing -/

theorem and_255 (x : Nat) : x &&& 0xFF = x % 256 := Nat.and_pow_two_sub_one_eq_mod x 8

theorem pack_bytes (a b c d : Nat) (hb : b < 256) (hc : c < 256) (hd : d < 256) :
    (a <<< 24) ||| (b <<< 16) ||| (c <<< 8) ||| d = a * 2 ^ 24 + b * 2 ^ 16 + c * 2 ^ 8 + d := by
  simp only [Nat.shiftLeft_eq]
  have h1 : a * 2 ^ 24 ||| b * 2 ^ 16 = 2 ^ 16 * (a * 2 ^ 8 + b) := by
    have := Nat.mul_add_lt_is_or (i := 24) (b := b * 2 ^ 16) (by omega) a
    rw [Nat.mul_comm a, ← this]; omega
  have h2 : 2 ^ 16 * (a * 2 ^ 8 + b) ||| c * 2 ^ 8 = 2 ^ 8 * (a * 2 ^ 16 + b * 2 ^ 8 + c) := by
    have := Nat.mul_add_lt_is_or (i := 16) (b := c * 2 ^ 8) (by omega) (a * 2 ^ 8 + b)
    rw [← this]; omega
  have h3 := Nat.mul_add_lt_is_or (i := 8) (b := d) (by omega) (a * 2 ^ 16 + b * 2 ^ 8 + c)
  rw [h1, h2, ← h3]; omega

theorem GET_SIZE_eq (b0 b1 b2 b3 : Nat) :
    GET_SIZE [b0, b1, b2, b3] =
      (b0 % 256 * 2 ^ 24 + b1 % 256 * 2 ^ 16 + b2 % 256 * 2 ^ 8 + b3 % 256) % 2 ^ 32 := by
  simp only [GET_SIZE, List.getD, List.get?, Option.getD, and_255]
  rw [pack_bytes _ _ _ _ (Nat.mod_lt _ (by norm_num)) (Nat.mod_lt _ (by norm_num))
    (Nat.mod_lt _ (by norm_num))]

theorem FIX_SIZE_eq_be32 (n : Nat) : FIX_SIZE n = be32 n := by
  simp only [FIX_SIZE, be32, and_255, Nat.shiftRight_eq_div_pow]

theorem GET_SIZE_be32 (n : Nat) (h : n < 2 ^ 32) : GET_SIZE (be32 n) = n := by
  rw [be32, GET_SIZE_eq]; omega

theorem write_frame_eq (id value : List Nat) :
    write_frame id value =
      id.take 4 ++ be32 ((strlen value + 1) % 2 ^ 32) ++ [0, 0] ++ [0] ++
        (cstr value).take (((strlen value + 1) % 2 ^ 32 + 2 ^ 32 - 1) % 2 ^ 32) := by
  simp only [write_frame, be32, and_255, Nat.shiftRight_eq_div_pow]

/-- C1: for every 32-bit unsigned value `v`, `GET_SIZE` of the four bytes `FIX_SIZE` stores
for `v` is `v`, and so is `GET_SIZE` of the four size bytes that `write_id3_tags` puts in
a frame header (bytes 4 to 7 of the frame) when its `frame_size` is `v`. -/
theorem size_encoding_symmetry (v : Nat) (hv : v < 2 ^ 32) :
    GET_SIZE (FIX_SIZE v) = v ∧
    ∀ id value : List Nat, id.length = 4 → (strlen value + 1) % 2 ^ 32 = v →
      GET_SIZE (((write_frame id value).drop 4).take 4) = v := by
  refine ⟨by rw [FIX_SIZE_eq_be32, GET_SIZE_be32 v hv], ?_⟩
  intro id value hid hlen
  rw [write_frame_eq, hlen]
  have h4 : (id.take 4).length = 4 := by simp [hid]
  simp only [List.append_assoc]
  rw [List.drop_left' h4]
  have : (be32 v).length = 4 := rfl
  rw [List.take_left' this]
  exact GET_SIZE_be32 v hv

theorem size_encoding_symmetry_witness :
    GET_SIZE (FIX_SIZE 258) = 258 ∧
    ∀ id value : List Nat, id.length = 4 → (strlen value + 1) % 2 ^ 32 = 258 →
      GET_SIZE (((write_frame id value).drop 4).take 4) = 258 :=
  size_encoding_symmetry 258 (by decide)

/-- C2: for four bytes `b0 b1 b2 b3`, each below 256, `GET_SIZE` is the plain big-endian
value `b0 * 2^24 + b1 * 2^16 + b2 * 2^8 + b3`, an unsigned 32-bit value; all 8 bits of a
byte count: 00 00 00 80 is 128 and 00 00 01 00 is 256. -/
theorem decode_size_big_endian (b0 b1 b2 b3 : Nat)
    (h0 : b0 < 256) (h1 : b1 < 256) (h2 : b2 < 256) (h3 : b3 < 256) :
    GET_SIZE [b0, b1, b2, b3] = b0 * 2 ^ 24 + b1 * 2 ^ 16 + b2 * 2 ^ 8 + b3 ∧
    GET_SIZE [b0, b1, b2, b3] < 2 ^ 32 ∧
    GET_SIZE [0, 0, 0, 128] = 128 ∧ GET_SIZE [0, 0, 1, 0] = 256 := by
  rw [GET_SIZE_eq]
  refine ⟨by omega, by omega, by decide, by decide⟩

theorem decode_size_big_endian_witness :
    GET_SIZE [255, 0, 1, 128] = 255 * 2 ^ 24 + 0 * 2 ^ 16 + 1 * 2 ^ 8 + 128 ∧
    GET_SIZE [255, 0, 1, 128] < 2 ^ 32 ∧
    GET_SIZE [0, 0, 0, 128] = 128 ∧ GET_SIZE [0, 0, 1, 0] = 256 :=
  decode_size_big_endian 255 0 1 128 (by decide) (by decide) (by decide) (by decide)

/-! ## C strings and the header gates of the reader -/

theorem takeWhile_eq_self_of_length {p : Nat → Bool} :
    ∀ (l c : List Nat), l.length = c.length → l.takeWhile p = c → l = c
  | [], c, hl, _ => by
    cases c with
    | nil => rfl
    | cons x c => simp at hl
  | a :: l, c, hl, h => by
    cases c with
    | nil => simp at hl
    | cons x c =>
      rw [List.takeWhile_cons] at h
      split at h
      · simp only [List.cons.injEq] at h
        simp only [List.length_cons, Nat.add_right_cancel_iff] at hl
        rw [h.1, takeWhile_eq_self_of_length l c hl h.2]
      · simp at h

theorem cstr_of_nul_free (s : List Nat) (h : 0 ∉ s) : cstr s = s := by
  unfold cstr
  rw [List.takeWhile_eq_self_iff]
  intro a ha
  have : a ≠ 0 := fun h0 => h (h0 ▸ ha)
  simpa using this

theorem strlen_of_nul_free (s : List Nat) (h : 0 ∉ s) : strlen s = s.length := by
  rw [strlen, cstr_of_nul_free s h]

/-- For a 4-byte buffer and a NUL-free 4-byte string, `strcmp` is byte equality. -/
theorem strcmp_eq_iff (a c : List Nat) (hlen : a.length = c.length) (hc : 0 ∉ c) :
    strcmp_eq a c = true ↔ a = c := by
  unfold strcmp_eq
  rw [beq_iff_eq, cstr_of_nul_free c hc]
  constructor
  · intro h; exact takeWhile_eq_self_of_length a c hlen h
  · intro h; rw [h]; exact cstr_of_nul_free c hc

theorem magic_test (bytes : List Nat) :
    strcmp_eq (overwrite (List.replicate 4 0) (bytes.take 3)) ID3 = true ↔ bytes.take 3 = ID3 := by
  unfold strcmp_eq
  rw [beq_iff_eq, cstr_of_nul_free ID3 (by decide)]
  match bytes with
  | [] => simp [overwrite, cstr, ID3]
  | [a] => 
    simp only [overwrite, cstr, ID3, List.take, List.replicate, List.length, List.drop, List.cons_append, List.nil_append, List.takeWhile_cons, List.takeWhile_nil]
    split <;> simp
  | [a, b] => 
    simp only [overwrite, cstr, ID3, List.take, List.replicate, List.length, List.drop, List.cons_append, List.nil_append, List.takeWhile_cons, List.takeWhile_nil]
    split <;> (try split) <;> simp
  | a :: b :: c :: rest =>
    simp only [overwrite, cstr, ID3, List.take, List.replicate, List.length, List.drop, List.cons_append, List.nil_append, List.takeWhile_cons, List.takeWhile_nil]
    split <;> (try split) <;> (try split) <;> simp_all

theorem read_of_magic (env : Env) (filename : List Char) (bytes : List Nat)
    (h : bytes.take 3 = ID3) :
    read_id3_tags env filename (some bytes) = read_after_magic env filename bytes := by
  have := (magic_test bytes).mpr h
  unfold read_id3_tags
  simp only [this, Bool.not_true, Bool.false_eq_true, if_false]

theorem read_of_no_magic (env : Env) (filename : List Char) (bytes : List Nat)
    (h : bytes.take 3 ≠ ID3) : read_id3_tags env filename (some bytes) = .ret none := by
  have := (magic_test bytes).not.mpr h
  unfold read_id3_tags
  simp only [Bool.not_eq_true] at this
  simp only [this, Bool.not_false, if_true]

/-- C9: a file whose first three bytes are not 'I', 'D', '3' (a file shorter than three
bytes included) makes `read_id3_tags` return `NULL`, whatever the rest of the file, the
file name and the environment; a file that starts with "ID3" passes this test, the call
going on with the version test. -/
theorem magic_rejection (env : Env) (filename : List Char) (bytes : List Nat) :
    (bytes.take 3 ≠ ID3 → read_id3_tags env filename (some bytes) = .ret none) ∧
    (bytes.take 3 = ID3 →
      read_id3_tags env filename (some bytes) = read_after_magic env filename bytes) := by
  exact ⟨read_of_no_magic env filename bytes, read_of_magic env filename bytes⟩

theorem magic_rejection_witness :
    read_id3_tags Env.ideal sample_name (some [73, 68, 52, 3, 0, 0, 0, 0, 0, 0]) = .ret none :=
  (magic_rejection Env.ideal sample_name [73, 68, 52, 3, 0, 0, 0, 0, 0, 0]).1 (by decide)

/-- C10: on a file of at least 5 bytes that starts with "ID3", `read_id3_tags` returns
`NULL` when the major version byte `v` at offset 3 is not 3, and its outcome does not
depend on the revision byte at offset 4: two files that differ in that byte only have
the same outcome. -/
theorem version_gate (env : Env) (filename : List Char) (v r : Nat) (rest : List Nat) :
    (v ≠ 3 →
      read_id3_tags env filename (some (73 :: 68 :: 51 :: v :: r :: rest)) = .ret none) ∧
    (∀ r2 : Nat, read_id3_tags env filename (some (73 :: 68 :: 51 :: v :: r :: rest)) =
      read_id3_tags env filename (some (73 :: 68 :: 51 :: v :: r2 :: rest))) := by
  constructor
  · intro hv
    rw [read_of_magic env filename (73 :: 68 :: 51 :: v :: r :: rest) rfl]
    simp [read_after_magic, overwrite, hv]
  · intro r2
    rw [read_of_magic env filename (73 :: 68 :: 51 :: v :: r :: rest) rfl,
      read_of_magic env filename (73 :: 68 :: 51 :: v :: r2 :: rest) rfl]
    simp [read_after_magic, overwrite]

theorem version_gate_witness :
    read_id3_tags Env.ideal sample_name (some (73 :: 68 :: 51 :: 4 :: 0 :: [])) = .ret none :=
  (version_gate Env.ideal sample_name 4 0 []).1 (by decide)

/-! ## One pass of the reader loop on a complete frame -/

theorem strcmp_eq_decide (a c : List Nat) (hlen : a.length = c.length) (hc : 0 ∉ c) :
    strcmp_eq a c = decide (a = c) := by
  rw [Bool.eq_iff_iff, strcmp_eq_iff a c hlen hc, decide_eq_true_iff]

theorem cstr_at_text (t : List Nat) (more : List (Option Nat)) :
    cstr_at (t.map some ++ some 0 :: more) = some (cstr t) := by
  induction t with
  | nil => simp [cstr_at, cstr]
  | cons a t ih =>
    simp only [List.map_cons, List.cons_append, cstr_at, ih, cstr, List.takeWhile_cons]
    by_cases ha : a = 0
    · simp [ha]
    · simp [ha]
      exact ih

theorem set_terminator (l : List Nat) (c : Option Nat) :
    (l.map some ++ [none]).set l.length c = l.map some ++ [c] := by
  induction l with
  | nil => rfl
  | cons a l ih => simp only [List.map_cons, List.cons_append, List.length_cons, List.set_cons_succ, ih]

/-- The block of the reader after `fread` and the store of the terminator. -/
theorem reader_block (payload rest : List Nat) :
    (overwrite (List.replicate (payload.length + 1) none)
      (((payload ++ rest).take payload.length).map some)).set payload.length (some 0) =
    payload.map some ++ [some 0] := by
  rw [List.take_left' rfl]
  simp only [overwrite, List.length_map, List.drop_replicate, Nat.add_sub_cancel_left]
  exact set_terminator payload (some 0)

theorem cstr_at_block (payload : List Nat) :
    cstr_at ((payload.map some ++ [some 0]).drop 1) =
      if payload = [] then none else some (cstr (payload.drop 1)) := by
  cases payload with
  | nil => rfl
  | cons e t => simp [cstr_at_text]

theorem defined_bytes_map_some (l : List Nat) : defined_bytes (l.map some) = some l := by
  induction l with
  | nil => rfl
  | cons a l ih => simp [defined_bytes, ih]

theorem read_frame_complete (env : Env) (hm : ∀ n, env.malloc n = true) (d : TagData)
    (sb fb : List (Option Nat)) (hsb : sb.length = 4) (hfb : fb.length = 2)
    (f : Frame) (hf : f.Complete) (rest : List Nat) :
    read_frame env ⟨d, sb, fb, f.bytes ++ rest⟩ =
      if f.readable then
        .next ⟨apply_frame d f, (be32 f.payload.length).map some, f.flags.map some, rest⟩
      else .stop .undefined := by
  obtain ⟨id, flags, payload⟩ := f
  obtain ⟨hid, hfl, hlen⟩ := hf
  simp only at hid hfl hlen
  match id, hid, flags, hfl, sb, hsb, fb, hfb with
  | [i0, i1, i2, i3], _, [g0, g1], _, [s0, s1, s2, s3], _, [f0, f1], _ =>
  have hG := GET_SIZE_be32 payload.length hlen
  simp only [be32] at hG
  have hc : ∀ c : List Nat, c.length = 4 → 0 ∉ c →
      strcmp_eq [i0, i1, i2, i3] c = decide ([i0, i1, i2, i3] = c) :=
    fun c h4 h0 => strcmp_eq_decide _ _ h4.symm h0
  have hbytes : (Frame.mk [i0, i1, i2, i3] [g0, g1] payload).bytes ++ rest =
      i0 :: i1 :: i2 :: i3 :: (payload.length / 2 ^ 24 % 256) ::
        (payload.length / 2 ^ 16 % 256) :: (payload.length / 2 ^ 8 % 256) ::
        (payload.length % 256) :: g0 :: g1 :: (payload ++ rest) := by
    simp [Frame.bytes, be32]
  unfold read_frame
  rw [hbytes]
  simp only [be32, List.take_succ_cons, List.take_zero, List.drop_succ_cons, List.drop_zero,
    List.length_cons, List.length_nil, List.cons_append,
    List.nil_append, List.map_cons, List.map_nil,
    overwrite, defined_bytes, Option.map, hG, hm, Bool.not_true, Bool.false_eq_true,
    if_false, ne_eq, not_true_eq_false, List.take_left' rfl, List.drop_left' rfl]
  by_cases hn : payload.length + 1 < 2 ^ 32
  · rw [Nat.mod_eq_of_lt hn, if_neg (by omega)]
    have hblock := reader_block payload rest
    simp only [overwrite, List.take_left' rfl] at hblock
    rw [hblock, hc TIT2 rfl (by decide), hc TPE1 rfl (by decide), hc TALB rfl (by decide),
      hc TYER rfl (by decide), hc TCON rfl (by decide)]
    unfold Frame.readable
    rw [decide_eq_true hn, Bool.true_and]
    rw [cstr_at_block]
    clear hblock hG hn hlen
    generalize payload.length / 2 ^ 24 % 256 = z0
    generalize payload.length / 2 ^ 16 % 256 = z1
    generalize payload.length / 2 ^ 8 % 256 = z2
    generalize payload.length % 256 = z3
    generalize [i0, i1, i2, i3] = id
    by_cases hp : payload = []
    · simp only [hp, if_true, apply_frame, decoded_field, decide_eq_true_eq]
      split_ifs <;> simp_all
    · simp only [hp, if_false, apply_frame, decoded_field, strdup, hm, if_true, decide_eq_true_eq]
      split_ifs <;> simp_all [TagData.set]
  · have h32 : payload.length + 1 = 2 ^ 32 := by omega
    unfold Frame.readable
    rw [decide_eq_false hn, Bool.false_and, h32]
    simp


theorem read_frame_eof (env : Env) (st : ReadState) (h : st.rem.length < 4) :
    read_frame env st = .stop (.ret (some st.data)) := by
  unfold read_frame
  have : (st.rem.take 4).length ≠ 4 := by rw [List.length_take]; omega
  simp only [this, ne_eq, not_false_eq_true, if_true]

theorem read_frames_complete (env : Env) (hm : ∀ n, env.malloc n = true) :
    ∀ (fs : List Frame) (fuel : Nat) (d : TagData) (sb fb : List (Option Nat)) (tail : List Nat),
      (∀ f ∈ fs, f.Complete) → sb.length = 4 → fb.length = 2 → tail.length < 4 →
      fs.length < fuel →
      read_frames env fuel ⟨d, sb, fb, frame_stream fs ++ tail⟩ =
        match decode d fs with
        | some d1 => .ret (some d1)
        | none => .undefined
  | [], fuel, d, sb, fb, tail, _, _, _, ht, hfuel => by
    obtain ⟨fuel, rfl⟩ : ∃ k, fuel = k + 1 := ⟨fuel - 1, by simp at hfuel; omega⟩
    simp only [read_frames, frame_stream, List.nil_append, decode]
    rw [read_frame_eof env _ ht]
  | f :: fs, fuel, d, sb, fb, tail, hc, hsb, hfb, ht, hfuel => by
    obtain ⟨fuel, rfl⟩ : ∃ k, fuel = k + 1 := ⟨fuel - 1, by simp at hfuel; omega⟩
    have hf := hc f (List.mem_cons_self f fs)
    simp only [read_frames, frame_stream, List.append_assoc]
    rw [read_frame_complete env hm d sb fb hsb hfb f hf]
    by_cases hr : f.readable = true
    · simp only [hr, if_true, decode]
      exact read_frames_complete env hm fs fuel _ _ _ tail
        (fun g hg => hc g (List.mem_cons_of_mem f hg)) rfl (by simp [hf.2.1]) ht
        (by simp at hfuel; omega)
    · simp [hr, decode]

theorem read_with_header (env : Env) (filename : List Char) (header s : List Nat)
    (hlen : header.length = 10) :
    read_id3_tags env filename (some (header ++ s)) =
      if accepted_header header filename && env.calloc then
        read_frames env ((header ++ s).length + 1)
          ⟨TagData.empty, List.replicate 4 none, List.replicate 2 none, s⟩
      else .ret none := by
  match header, hlen with
  | [h0, h1, h2, h3, h4, h5, h6, h7, h8, h9], _ =>
    by_cases hmagic : [h0, h1, h2] = ID3
    · rw [read_of_magic env filename _ (by simpa using hmagic)]
      unfold read_after_magic accepted_header
      simp only [List.cons_append, List.nil_append, List.drop_succ_cons, List.drop_zero,
        List.take_succ_cons, List.take_zero, List.map_cons, List.map_nil, overwrite,
        List.length_cons, List.length_nil, List.head?_cons, hmagic, beq_self_eq_true,
        Bool.true_and, List.getD_cons_succ, List.getD_cons_zero]
      by_cases hv : h3 = 3
      · subst hv
        cases mp3_extension filename <;> cases env.calloc <;> simp
      · simp [hv]
    · rw [read_of_no_magic env filename _ (by simpa using hmagic)]
      unfold accepted_header
      have : ([h0, h1, h2] == ID3) = false := by simpa using hmagic
      simp [this]

/-! ## The editor loop on complete frames -/

theorem editor_block (payload rest : List Nat) :
    overwrite (List.replicate payload.length none)
      (((payload ++ rest).take payload.length).map some) = payload.map some := by
  rw [List.take_left' rfl]
  simp [overwrite]

theorem edit_frame_eof (env : Env) (tag value : List Nat) (st : EditState)
    (h : st.rem.length < 4) : edit_frame env tag value st = .stop (.eof st) := by
  unfold edit_frame
  have : (st.rem.take 4).length ≠ 4 := by rw [List.length_take]; omega
  simp only [this, ne_eq, not_false_eq_true, if_true]

theorem text_frame_bytes (id flags value : List Nat) (hv : strlen value + 1 < 2 ^ 32) :
    id ++ be32 ((strlen value + 1) % 2 ^ 32) ++ flags ++ [0] ++
        (cstr value).take (((strlen value + 1) % 2 ^ 32 + 2 ^ 32 - 1) % 2 ^ 32) =
      (text_frame id flags (cstr value)).bytes := by
  have h1 : (strlen value + 1) % 2 ^ 32 = strlen value + 1 := Nat.mod_eq_of_lt hv
  have h2 : (strlen value + 1 + 2 ^ 32 - 1) % 2 ^ 32 = strlen value := by omega
  rw [h1, h2]
  have h3 : (cstr value).take (strlen value) = cstr value := List.take_length _
  rw [h3]
  simp [text_frame, Frame.bytes, strlen]

theorem edit_frame_complete (env : Env) (hm : ∀ n, env.malloc n = true)
    (tag value : List Nat) (htag : tag.length = 4) (h0 : 0 ∉ tag)
    (sb fb : List (Option Nat)) (hsb : sb.length = 4) (hfb : fb.length = 2)
    (m : Bool) (out : List Nat) (f : Frame) (hf : f.Complete) (rest : List Nat) :
    edit_frame env tag value ⟨sb, fb, m, f.bytes ++ rest, out⟩ =
      if !m && decide (f.id = tag) then
        .next ⟨(be32 ((strlen value + 1) % 2 ^ 32)).map some, f.flags.map some, true, rest,
          out ++ (f.id ++ be32 ((strlen value + 1) % 2 ^ 32) ++ f.flags ++ [0] ++
            (cstr value).take (((strlen value + 1) % 2 ^ 32 + 2 ^ 32 - 1) % 2 ^ 32))⟩
      else
        .next ⟨(be32 f.payload.length).map some, f.flags.map some, m, rest,
          out ++ f.bytes⟩ := by
  obtain ⟨id, flags, payload⟩ := f
  obtain ⟨hid, hfl, hlen⟩ := hf
  simp only at hid hfl hlen
  match id, hid, flags, hfl, sb, hsb, fb, hfb with
  | [i0, i1, i2, i3], _, [g0, g1], _, [s0, s1, s2, s3], _, [f0, f1], _ =>
  have hG := GET_SIZE_be32 payload.length hlen
  simp only [be32] at hG
  have hc : strcmp_eq [i0, i1, i2, i3] tag = decide ([i0, i1, i2, i3] = tag) :=
    strcmp_eq_decide _ _ htag.symm h0
  have hbytes : (Frame.mk [i0, i1, i2, i3] [g0, g1] payload).bytes ++ rest =
      i0 :: i1 :: i2 :: i3 :: (payload.length / 2 ^ 24 % 256) ::
        (payload.length / 2 ^ 16 % 256) :: (payload.length / 2 ^ 8 % 256) ::
        (payload.length % 256) :: g0 :: g1 :: (payload ++ rest) := by
    simp [Frame.bytes, be32]
  have hblock := editor_block payload rest
  have hassoc : ∀ a b c d : List Nat, out ++ [i0, i1, i2, i3] ++ a ++ b ++ c ++ d =
      out ++ ([i0, i1, i2, i3] ++ a ++ b ++ c ++ d) := by
    intro a b c d; simp only [List.append_assoc]
  have hassoc3 : ∀ a b c : List Nat, out ++ [i0, i1, i2, i3] ++ a ++ b ++ c =
      out ++ ([i0, i1, i2, i3] ++ a ++ b ++ c) := by
    intro a b c; simp only [List.append_assoc]
  unfold edit_frame
  rw [hbytes]
  simp only [List.take_succ_cons, List.take_zero, List.drop_succ_cons, List.drop_zero,
    List.length_cons, List.length_nil, List.cons_append,
    List.nil_append, List.map_cons, List.map_nil,
    overwrite, defined_bytes, Option.map, hG, hm, Bool.not_true, Bool.false_eq_true,
    if_false, ne_eq, not_true_eq_false, List.drop_left' rfl, hc]
  simp only [overwrite] at hblock
  rw [hblock, defined_bytes_map_some, FIX_SIZE_eq_be32]
  by_cases hmatch : (!m && decide ([i0, i1, i2, i3] = tag)) = true
  · simp only [hmatch, if_true]
    rw [hassoc]
    rfl
  · simp only [hmatch, if_false, Bool.false_eq_true]
    rw [hassoc3]
    rfl

theorem edit_first_modified (tag text : List Nat) (fs : List Frame) :
    (fs.any (fun f => f.id == tag) = false) → edit_first tag text fs = fs := by
  induction fs with
  | nil => intro _; rfl
  | cons f fs ih =>
    intro h
    simp only [List.any_cons, Bool.or_eq_false_iff, beq_eq_false_iff_ne] at h
    simp only [edit_first, h.1, if_false, ih h.2]

theorem edit_frames_complete (env : Env) (hm : ∀ n, env.malloc n = true)
    (tag value : List Nat) (htag : tag.length = 4) (h0 : 0 ∉ tag) :
    ∀ (fs : List Frame) (fuel : Nat) (sb fb : List (Option Nat)) (m : Bool)
      (out tail : List Nat),
      (∀ f ∈ fs, f.Complete) → sb.length = 4 → fb.length = 2 → tail.length < 4 →
      fs.length < fuel →
      (m = false → fs.any (fun f => f.id == tag) = true → strlen value + 1 < 2 ^ 32) →
      ∃ sb1 fb1, edit_frames env tag value fuel ⟨sb, fb, m, frame_stream fs ++ tail, out⟩ =
        .eof ⟨sb1, fb1, m || fs.any (fun f => f.id == tag), tail,
          out ++ frame_stream (if m then fs else edit_first tag (cstr value) fs)⟩
  | [], fuel, sb, fb, m, out, tail, _, _, _, ht, hfuel, _ => by
    obtain ⟨fuel, rfl⟩ : ∃ k, fuel = k + 1 := ⟨fuel - 1, by simp at hfuel; omega⟩
    refine ⟨sb, fb, ?_⟩
    simp only [edit_frames, frame_stream, List.nil_append]
    rw [edit_frame_eof env tag value _ ht]
    simp [edit_first, frame_stream]
  | f :: fs, fuel, sb, fb, m, out, tail, hc, hsb, hfb, ht, hfuel, hv => by
    obtain ⟨fuel, rfl⟩ : ∃ k, fuel = k + 1 := ⟨fuel - 1, by simp at hfuel; omega⟩
    have hf := hc f (List.mem_cons_self f fs)
    have hrest : ∀ g ∈ fs, g.Complete := fun g hg => hc g (List.mem_cons_of_mem f hg)
    have hfl : (f.flags.map some).length = 2 := by simp [hf.2.1]
    have hfu : fs.length < fuel := by simp at hfuel; omega
    simp only [edit_frames, frame_stream, List.append_assoc]
    rw [edit_frame_complete env hm tag value htag h0 sb fb hsb hfb m out f hf]
    by_cases hmatch : (!m && decide (f.id = tag)) = true
    · simp only [hmatch, if_true]
      simp only [Bool.and_eq_true, Bool.not_eq_true', decide_eq_true_eq] at hmatch
      have hv1 : strlen value + 1 < 2 ^ 32 := hv hmatch.1 (by simp [hmatch.2])
      rw [text_frame_bytes f.id f.flags value hv1]
      obtain ⟨sb1, fb1, h⟩ := edit_frames_complete env hm tag value htag h0 fs fuel
        ((be32 ((strlen value + 1) % 2 ^ 32)).map some) (f.flags.map some) true
        (out ++ (text_frame f.id f.flags (cstr value)).bytes) tail hrest rfl hfl ht hfu
        (fun h => by cases h)
      refine ⟨sb1, fb1, ?_⟩
      rw [h]
      simp [hmatch.1, hmatch.2, edit_first, frame_stream]
    · simp only [hmatch, if_false, Bool.false_eq_true]
      have hv2 : m = false → fs.any (fun f => f.id == tag) = true →
          strlen value + 1 < 2 ^ 32 := by
        intro hm0 hany
        exact hv hm0 (by simp only [List.any_cons, hany, Bool.or_true])
      obtain ⟨sb1, fb1, h⟩ := edit_frames_complete env hm tag value htag h0 fs fuel
        ((be32 f.payload.length).map some) (f.flags.map some) m
        (out ++ f.bytes) tail hrest rfl hfl ht hfu hv2
      refine ⟨sb1, fb1, ?_⟩
      rw [h]
      cases m with
      | true => simp [frame_stream]
      | false =>
        have : f.id ≠ tag := by simpa using hmatch
        simp [this, edit_first, frame_stream]

theorem frame_stream_length (fs : List Frame) : fs.length ≤ (frame_stream fs).length := by
  induction fs with
  | nil => simp [frame_stream]
  | cons f fs ih =>
    simp only [frame_stream, Frame.bytes, be32, List.length_append, List.length_cons,
      List.length_nil]
    omega

theorem source_of_not_temp (env : Env) (filename : List Char) (content : List Nat)
    (hname : is_temp env filename = false) :
    source_after_temp env filename content = content := by
  unfold source_after_temp
  rw [hname]
  rfl

theorem source_of_temp (env : Env) (filename : List Char) (content : List Nat)
    (hname : is_temp env filename = true) :
    source_after_temp env filename content = [] := by
  unfold source_after_temp
  rw [hname]
  rfl

theorem source_length_le (env : Env) (filename : List Char) (content : List Nat) :
    (source_after_temp env filename content).length ≤ content.length := by
  unfold source_after_temp
  split
  · exact Nat.zero_le _
  · exact Nat.le_refl _

theorem ideal_not_temp (filename : List Char) (h : filename ≠ temp_name) :
    is_temp Env.ideal filename = false := by
  simp [is_temp, Env.ideal, h]

theorem header_block (header s : List Nat) (hlen : header.length = 10) :
    defined_bytes (overwrite (List.replicate 10 none) (((header ++ s).take 10).map some)) =
      some header := by
  rw [List.take_left' hlen]
  simp only [overwrite, List.length_map, hlen, List.drop_replicate, Nat.sub_self,
    List.replicate_zero, List.append_nil]
  exact defined_bytes_map_some header

theorem edit_tag_complete (env : Env) (hnf : env.NoFailure) (filename : List Char)
    (header : List Nat) (hlen : header.length = 10) (fs : List Frame)
    (hc : ∀ f ∈ fs, f.Complete) (d : TagData)
    (hname : is_temp env filename = false)
    (hacc : read_id3_tags env filename (some (header ++ frame_stream fs)) = .ret (some d))
    (tag value : List Nat) (htag : tag.length = 4) (h0 : 0 ∉ tag)
    (hv : fs.any (fun f => f.id == tag) = true → strlen value + 1 < 2 ^ 32) :
    edit_tag env filename (some (header ++ frame_stream fs)) tag value =
      .ret ⟨0, some (header ++ frame_stream (edit_first tag (cstr value) fs)), none,
        !(fs.any (fun f => f.id == tag))⟩ := by
  obtain ⟨hm, _, htemp, hren⟩ := hnf
  obtain ⟨sb1, fb1, h⟩ := edit_frames_complete env hm tag value htag h0 fs
    ((header ++ frame_stream fs).length + 1) (List.replicate 4 none) (List.replicate 2 none)
    false header [] hc rfl rfl (by decide) (by
      have := frame_stream_length fs
      simp only [List.length_append]; omega) (fun _ => hv)
  rw [List.append_nil] at h
  unfold edit_tag
  rw [hacc]
  simp only [htemp, hren, Bool.not_true, Bool.false_eq_true, if_false,
    source_of_not_temp env filename _ hname,
    header_block header _ hlen, List.drop_left' hlen, h, Bool.false_or]

/-- The editor on a file that is `temp.mp3` itself: the file is emptied before its header
is read, and the 10 cells written as header were never filled. -/
theorem edit_tag_on_temp (env : Env) (htemp : env.fopen_temp = true)
    (filename : List Char) (hname : is_temp env filename = true) (content : List Nat)
    (d : TagData) (hacc : read_id3_tags env filename (some content) = .ret (some d))
    (tag value : List Nat) :
    edit_tag env filename (some content) tag value = .undefined := by
  unfold edit_tag
  rw [hacc]
  simp only [htemp, Bool.not_true, Bool.false_eq_true, if_false,
    source_of_temp env filename content hname]
  rfl

/-! ## The writer -/

theorem copy_rest_eq : ∀ (fuel : Nat) (rem out : List Nat), rem.length < fuel →
    copy_rest fuel rem out = .ret (out ++ rem)
  | 0, _, _, h => by omega
  | fuel + 1, rem, out, h => by
    unfold copy_rest
    by_cases hr : (rem.take 1024).length > 0
    · simp only [hr, if_true]
      have hlt : (rem.drop 1024).length < fuel := by
        rw [List.length_take] at hr
        rw [List.length_drop]; omega
      rw [copy_rest_eq fuel _ _ hlt, List.append_assoc, List.take_append_drop]
    · simp only [hr, if_false]
      have : rem = [] := by
        rw [List.length_take] at hr
        exact List.length_eq_zero.mp (by omega)
      rw [this, List.append_nil]

theorem Field.id_length (k : Field) : k.id.length = 4 := by cases k <;> rfl

theorem write_frame_text (k : Field) (value : List Nat) (hv : strlen value + 1 < 2 ^ 32) :
    write_frame k.id value = (text_frame k.id [0, 0] (cstr value)).bytes := by
  rw [write_frame_eq, List.take_of_length_le (by rw [k.id_length])]
  exact text_frame_bytes k.id [0, 0] value hv

theorem frames_eq (data : TagData) :
    frames data =
      [Field.title, Field.artist, Field.album, Field.year, Field.genre, Field.comment].map
        (fun k => (k.id, data.get k)) := rfl

theorem write_frames_fold (data : TagData)
    (h : ∀ k t, data.get k = some t → 0 ∉ t ∧ t.length + 1 < 2 ^ 32) :
    ∀ (ks : List Field) (out : List Nat),
      (ks.map (fun k => (k.id, data.get k))).foldl
        (fun out fr => match fr.2 with
          | some value => out ++ write_frame fr.1 value
          | none => out) out =
      out ++ frame_stream
        (ks.filterMap (fun k => (data.get k).map (fun text => text_frame k.id [0, 0] text)))
  | [], out => by simp [frame_stream]
  | k :: ks, out => by
    simp only [List.map_cons, List.foldl_cons, List.filterMap_cons]
    cases hk : data.get k with
    | none => simp only [Option.map_none']; exact write_frames_fold data h ks out
    | some t =>
      obtain ⟨h0, hl⟩ := h k t hk
      have hv : strlen t + 1 < 2 ^ 32 := by rw [strlen_of_nul_free t h0]; exact hl
      simp only [Option.map_some', frame_stream]
      rw [write_frames_fold data h ks, write_frame_text k t hv, cstr_of_nul_free t h0,
        List.append_assoc]

theorem write_frames_eq (data : TagData)
    (h : ∀ k t, data.get k = some t → 0 ∉ t ∧ t.length + 1 < 2 ^ 32) (out : List Nat) :
    write_frames data out = out ++ frame_stream (record_frames data) := by
  unfold write_frames record_frames
  rw [frames_eq]
  exact write_frames_fold data h _ out

theorem write_long (env : Env) (hnf : env.NoFailure) (filename : List Char)
    (hname : is_temp env filename = false) (src : List Nat)
    (hsrc : 10 ≤ src.length) (data : TagData)
    (h : ∀ k t, data.get k = some t → 0 ∉ t ∧ t.length + 1 < 2 ^ 32) :
    write_id3_tags env filename (some src) data =
      .ret ⟨0, some (src.take 10 ++ frame_stream (record_frames data) ++ src.drop 10),
        none, false⟩ := by
  obtain ⟨_, _, htemp, hren⟩ := hnf
  have h10 : (src.take 10).length = 10 := by rw [List.length_take]; omega
  have hcopy := copy_rest_eq (src.length + 1) (src.drop 10)
    (src.take 10 ++ frame_stream (record_frames data)) (by rw [List.length_drop]; omega)
  unfold write_id3_tags
  simp only [htemp, hren, Bool.not_true, Bool.false_eq_true, if_false,
    source_of_not_temp env filename src hname, h10, ne_eq,
    not_true_eq_false, overwrite, List.length_replicate, List.drop_replicate, Nat.sub_self,
    List.replicate_zero, List.append_nil, write_frames_eq data h, hcopy]

/-- The header `write_id3_tags` writes for a source shorter than 10 bytes. -/
theorem short_header (src : List Nat) (hsrc : src.length < 10) :
    ∃ b5 b6 b7 b8 b9,
      overwrite (overwrite (List.replicate 10 0) (src.take 10)) [73, 68, 51, 3, 0] =
        [73, 68, 51, 3, 0, b5, b6, b7, b8, b9] := by
  match src, hsrc with
  | [], _ => exact ⟨_, _, _, _, _, rfl⟩
  | [_], _ => exact ⟨_, _, _, _, _, rfl⟩
  | [_, _], _ => exact ⟨_, _, _, _, _, rfl⟩
  | [_, _, _], _ => exact ⟨_, _, _, _, _, rfl⟩
  | [_, _, _, _], _ => exact ⟨_, _, _, _, _, rfl⟩
  | [_, _, _, _, _], _ => exact ⟨_, _, _, _, _, rfl⟩
  | [_, _, _, _, _, _], _ => exact ⟨_, _, _, _, _, rfl⟩
  | [_, _, _, _, _, _, _], _ => exact ⟨_, _, _, _, _, rfl⟩
  | [_, _, _, _, _, _, _, _], _ => exact ⟨_, _, _, _, _, rfl⟩
  | [_, _, _, _, _, _, _, _, _], _ => exact ⟨_, _, _, _, _, rfl⟩
  | _ :: _ :: _ :: _ :: _ :: _ :: _ :: _ :: _ :: _ :: _, h =>
    exact absurd h (by simp only [List.length_cons]; omega)

theorem write_short (env : Env) (hnf : env.NoFailure) (filename : List Char)
    (content : List Nat) (hcontent : content.length < 10) (data : TagData)
    (h : ∀ k t, data.get k = some t → 0 ∉ t ∧ t.length + 1 < 2 ^ 32) :
    ∃ b5 b6 b7 b8 b9, write_id3_tags env filename (some content) data =
      .ret ⟨0, some ([73, 68, 51, 3, 0, b5, b6, b7, b8, b9] ++
        frame_stream (record_frames data)), none, false⟩ := by
  obtain ⟨_, _, htemp, hren⟩ := hnf
  have hsrc : (source_after_temp env filename content).length < 10 :=
    Nat.lt_of_le_of_lt (source_length_le env filename content) hcontent
  unfold write_id3_tags
  dsimp only
  generalize source_after_temp env filename content = src at hsrc ⊢
  obtain ⟨b5, b6, b7, b8, b9, hh⟩ := short_header src hsrc
  refine ⟨b5, b6, b7, b8, b9, ?_⟩
  have h10 : (src.take 10).length ≠ 10 := by rw [List.length_take]; omega
  have hd : src.drop 10 = [] := List.drop_of_length_le (by omega)
  have hcopy := copy_rest_eq (src.length + 1) []
    ([73, 68, 51, 3, 0, b5, b6, b7, b8, b9] ++ frame_stream (record_frames data))
    (by simp)
  simp only [htemp, hren, Bool.not_true, Bool.false_eq_true, if_false, h10, ne_eq,
    not_false_eq_true, if_true, hh, hd, write_frames_eq data h, hcopy, List.append_nil]


/-! ## Records decoded from frame sequences -/

theorem get_set (d : TagData) (k j : Field) (t : Option (List Nat)) :
    (d.set k t).get j = if j = k then t else d.get j := by
  cases k <;> cases j <;> rfl

theorem decoded_field_id (k : Field) :
    decoded_field k.id = if k = Field.comment then none else some k := by
  cases k <;> decide

theorem id_of_decoded_field (id : List Nat) (k : Field) (h : decoded_field id = some k) :
    id = k.id := by
  unfold decoded_field at h
  split_ifs at h with h1 h2 h3 h4 h5 <;> simp only [Option.some.injEq] at h <;> subst h <;>
    assumption

theorem apply_frame_get (d : TagData) (f : Frame) (j : Field) :
    (apply_frame d f).get j =
      if decoded_field f.id = some j then some (cstr (f.payload.drop 1)) else d.get j := by
  unfold apply_frame
  cases h : decoded_field f.id with
  | none => simp
  | some k =>
    simp only [get_set, Option.some.injEq]
    by_cases hjk : j = k
    · simp [hjk]
    · have : ¬ k = j := fun e => hjk e.symm
      simp [hjk, this]

theorem decode_cons_some (d d1 : TagData) (f : Frame) (fs : List Frame)
    (h : decode d (f :: fs) = some d1) :
    f.readable = true ∧ decode (apply_frame d f) fs = some d1 := by
  unfold decode at h
  by_cases hr : f.readable = true
  · rw [if_pos hr] at h; exact ⟨hr, h⟩
  · rw [if_neg hr] at h; cases h

/-- Frames with another ID leave the member `k` alone, and act alike on two records
that agree on the other members. -/
theorem decode_other (k : Field) :
    ∀ (fs : List Frame) (d1 d2 d : TagData), (∀ f ∈ fs, f.id ≠ k.id) →
      decode d1 fs = some d → (∀ j, j ≠ k → d2.get j = d1.get j) →
      ∃ d3, decode d2 fs = some d3 ∧ d3.get k = d2.get k ∧ ∀ j, j ≠ k → d3.get j = d.get j
  | [], d1, d2, d, _, hd, hag => by
    simp only [decode, Option.some.injEq] at hd
    subst hd
    exact ⟨d2, rfl, rfl, hag⟩
  | f :: fs, d1, d2, d, hid, hd, hag => by
    obtain ⟨hr, hd1⟩ := decode_cons_some d1 d f fs hd
    have hfk : decoded_field f.id ≠ some k := fun e =>
      hid f (List.mem_cons_self f fs) (id_of_decoded_field f.id k e)
    obtain ⟨d3, h3, hk, hj⟩ := decode_other k fs (apply_frame d1 f) (apply_frame d2 f) d
      (fun g hg => hid g (List.mem_cons_of_mem f hg)) hd1 (by
        intro j hjk
        rw [apply_frame_get, apply_frame_get, hag j hjk])
    refine ⟨d3, ?_, ?_, hj⟩
    · simp only [decode, hr, if_true, h3]
    · rw [hk, apply_frame_get, if_neg hfk]

theorem countP_zero_ne (tag : List Nat) (fs : List Frame)
    (h : fs.countP (fun f => f.id == tag) = 0) : ∀ f ∈ fs, f.id ≠ tag := by
  intro f hf
  rw [List.countP_eq_zero] at h
  simpa using h f hf

theorem decode_edit_first (k : Field) (hk : k ≠ Field.comment) (v : List Nat)
    (h0 : 0 ∉ v) (hv : v.length + 2 < 2 ^ 32) :
    ∀ (fs : List Frame) (d0 d : TagData), fs.countP (fun f => f.id == k.id) = 1 →
      decode d0 fs = some d →
      ∃ d3, decode d0 (edit_first k.id v fs) = some d3 ∧ d3.get k = some v ∧
        ∀ j, j ≠ k → d3.get j = d.get j
  | [], d0, d, hcount, _ => by simp at hcount
  | f :: fs, d0, d, hcount, hd => by
    obtain ⟨hr, hd1⟩ := decode_cons_some d0 d f fs hd
    by_cases hid : f.id = k.id
    · have hc0 : fs.countP (fun f => f.id == k.id) = 0 := by
        rw [List.countP_cons_of_pos _ _ (by simpa using hid)] at hcount
        omega
      have hdec : decoded_field f.id = some k := by rw [hid, decoded_field_id, if_neg hk]
      have hr2 : (text_frame f.id f.flags v).readable = true := by
        simp only [Frame.readable, text_frame, List.length_cons, Bool.and_eq_true,
          decide_eq_true_eq, Bool.or_eq_true, bne_iff_ne, ne_eq]
        exact ⟨by omega, Or.inr (by simp)⟩
      obtain ⟨d3, h3, hk3, hj3⟩ := decode_other k fs (apply_frame d0 f)
        (apply_frame d0 (text_frame f.id f.flags v)) d (countP_zero_ne k.id fs hc0) hd1 (by
          intro j hjk
          have hne : ¬ (some k = some j) := fun e => hjk (Option.some.inj e).symm
          rw [apply_frame_get, apply_frame_get]
          simp only [text_frame, hdec, hne, if_false])
      refine ⟨d3, ?_, ?_, hj3⟩
      · simp only [edit_first, hid, if_true, decode]
        rw [← hid, hr2, if_pos rfl, h3]
      · rw [hk3, apply_frame_get]
        simp only [text_frame, hdec, if_true, List.drop_succ_cons, List.drop_zero,
          cstr_of_nul_free v h0]
    · have hc1 : fs.countP (fun f => f.id == k.id) = 1 := by
        rw [List.countP_cons_of_neg _ _ (by simpa using hid)] at hcount
        exact hcount
      obtain ⟨d3, h3, hk3, hj3⟩ := decode_edit_first k hk v h0 hv fs (apply_frame d0 f) d hc1 hd1
      refine ⟨d3, ?_, hk3, hj3⟩
      simp only [edit_first, hid, if_false, decode, hr, if_true, h3]

theorem edit_first_complete (tag v : List Nat) (hv : v.length + 1 < 2 ^ 32) :
    ∀ fs : List Frame, (∀ f ∈ fs, f.Complete) → ∀ f ∈ edit_first tag v fs, f.Complete
  | [], _ => by simp [edit_first]
  | g :: fs, hc => by
    have hg := hc g (List.mem_cons_self g fs)
    have hrest : ∀ f ∈ fs, f.Complete := fun f hf => hc f (List.mem_cons_of_mem g hf)
    unfold edit_first
    by_cases hid : g.id = tag
    · rw [if_pos hid]
      intro f hf
      rcases List.mem_cons.mp hf with rfl | hf
      · exact ⟨hg.1, hg.2.1, by simp only [text_frame, List.length_cons]; exact hv⟩
      · exact hrest f hf
    · rw [if_neg hid]
      intro f hf
      rcases List.mem_cons.mp hf with rfl | hf
      · exact hg
      · exact edit_first_complete tag v hv fs hrest f hf


/-! ## The reader on a header followed by complete frames -/

theorem ideal_no_failure : Env.ideal.NoFailure := ⟨fun _ => rfl, rfl, rfl, rfl⟩

/-- The reader on a 10-byte header followed by complete frames. -/
theorem read_complete (env : Env) (hnf : env.NoFailure) (filename : List Char)
    (header : List Nat) (hlen : header.length = 10) (fs : List Frame)
    (hc : ∀ f ∈ fs, f.Complete) :
    read_id3_tags env filename (some (header ++ frame_stream fs)) =
      if accepted_header header filename then
        match decode TagData.empty fs with
        | some d => .ret (some d)
        | none => .undefined
      else .ret none := by
  obtain ⟨hm, hcal, _, _⟩ := hnf
  have h := read_frames_complete env hm fs ((header ++ frame_stream fs).length + 1)
    TagData.empty (List.replicate 4 none) (List.replicate 2 none) [] hc rfl rfl (by decide)
    (by have := frame_stream_length fs; simp only [List.length_append]; omega)
  rw [List.append_nil] at h
  rw [read_with_header env filename header _ hlen, hcal, Bool.and_true, h]

theorem accepted_of_read (env : Env) (hnf : env.NoFailure) (filename : List Char)
    (header : List Nat) (hlen : header.length = 10) (fs : List Frame)
    (hc : ∀ f ∈ fs, f.Complete) (d : TagData)
    (hacc : read_id3_tags env filename (some (header ++ frame_stream fs)) = .ret (some d)) :
    accepted_header header filename = true ∧ decode TagData.empty fs = some d := by
  rw [read_complete env hnf filename header hlen fs hc] at hacc
  by_cases ha : accepted_header header filename = true
  · rw [if_pos ha] at hacc
    refine ⟨ha, ?_⟩
    cases hd : decode TagData.empty fs with
    | none => rw [hd] at hacc; cases hacc
    | some d1 =>
      rw [hd] at hacc
      simp only [Outcome.ret.injEq, Option.some.injEq] at hacc
      rw [hacc]
  · rw [if_neg ha] at hacc
    simp only [Outcome.ret.injEq] at hacc
    cases hacc

theorem any_of_countP_one (tag : List Nat) (fs : List Frame)
    (h : fs.countP (fun f => f.id == tag) = 1) : fs.any (fun f => f.id == tag) = true := by
  have hpos : 0 < fs.countP (fun f => f.id == tag) := by omega
  obtain ⟨f, hf, hp⟩ := List.countP_pos_iff.mp hpos
  exact List.any_eq_true.mpr ⟨f, hf, hp⟩


theorem decode_text_frame (d : TagData) (k : Field) (t : List Nat) (h0 : 0 ∉ t)
    (hl : t.length + 2 < 2 ^ 32) (e : Nat) (flags : List Nat) (fs : List Frame) :
    decode d (⟨k.id, flags, e :: t⟩ :: fs) =
      decode (if k = Field.comment then d else d.set k (some t)) fs := by
  have hr : (Frame.mk k.id flags (e :: t)).readable = true := by
    simp only [Frame.readable, List.length_cons, Bool.and_eq_true,
      decide_eq_true_eq, Bool.or_eq_true, bne_iff_ne, ne_eq]
    exact ⟨by omega, Or.inr (by simp)⟩
  simp only [decode, hr, if_true, apply_frame, decoded_field_id]
  by_cases hk : k = Field.comment
  · simp only [hk, if_true]
  · simp only [hk, if_false, List.drop_succ_cons, List.drop_zero, cstr_of_nul_free t h0]

theorem decode_record_fold (data : TagData)
    (h : ∀ k t, data.get k = some t → 0 ∉ t ∧ t.length + 2 < 2 ^ 32) :
    ∀ (ks : List Field) (d : TagData),
      decode d (ks.filterMap
        (fun k => (data.get k).map (fun text => text_frame k.id [0, 0] text))) =
      some (ks.foldl (fun d k => match data.get k with
        | some t => if k = Field.comment then d else d.set k (some t)
        | none => d) d)
  | [], d => rfl
  | k :: ks, d => by
    simp only [List.filterMap_cons, List.foldl_cons]
    cases hk : data.get k with
    | none => simp only [Option.map_none']; exact decode_record_fold data h ks d
    | some t =>
      obtain ⟨h0, hl⟩ := h k t hk
      simp only [Option.map_some']
      rw [show text_frame k.id [0, 0] t = ⟨k.id, [0, 0], 0 :: t⟩ from rfl,
        decode_text_frame d k t h0 hl, decode_record_fold data h ks]

/-- The record the reader decodes from the frames of a record: the five members it
stores are the ones written, the comment is absent. -/
theorem decode_record_frames (data : TagData)
    (h : ∀ k t, data.get k = some t → 0 ∉ t ∧ t.length + 2 < 2 ^ 32) :
    decode TagData.empty (record_frames data) = some { data with comment := none } := by
  unfold record_frames
  rw [decode_record_fold data h]
  obtain ⟨t1, t2, t3, t4, t5, t6⟩ := data
  cases t1 <;> cases t2 <;> cases t3 <;> cases t4 <;> cases t5 <;> cases t6 <;> rfl

theorem record_frames_complete (data : TagData)
    (h : ∀ k t, data.get k = some t → 0 ∉ t ∧ t.length + 2 < 2 ^ 32) :
    ∀ f ∈ record_frames data, f.Complete := by
  intro f hf
  unfold record_frames at hf
  obtain ⟨k, _, hk⟩ := List.mem_filterMap.mp hf
  cases hg : data.get k with
  | none => rw [hg] at hk; cases hk
  | some t =>
    rw [hg] at hk
    simp only [Option.map_some', Option.some.injEq] at hk
    subst hk
    have := (h k t hg).2
    exact ⟨k.id_length, rfl, by simp only [text_frame, List.length_cons]; omega⟩



/-! ## Round trip, frame mapping, edit-then-read, editor and writer layout -/

theorem frame_stream_append (as bs : List Frame) :
    frame_stream (as ++ bs) = frame_stream as ++ frame_stream bs := by
  induction as with
  | nil => rfl
  | cons a as ih =>
    rw [List.cons_append]
    simp only [frame_stream, ih, List.append_assoc]

/-- C3, evaluated at the failing input: the record with title "Song" and comment "Old" is
written to an empty source file; the write succeeds and commits the synthesized header
followed by a TIT2 frame and a COMM frame, and reading the committed file returns
title "Song" with the comment absent. -/
theorem roundtrip_loses_comment :
    write_id3_tags Env.ideal sample_name (some []) sample_record =
      .ret ⟨0, some (sample_header ++ frame_stream (record_frames sample_record)), none, false⟩ ∧
    read_id3_tags Env.ideal sample_name
        (some (sample_header ++ frame_stream (record_frames sample_record))) =
      .ret (some ⟨some text_Song, none, none, none, none, none⟩) := by
  decide

/-- Round trip for the members the reader stores: a record of NUL-free texts written to
a source shorter than 10 bytes and read back under a name ending in ".mp3" returns the
title, artist, album, year and genre that were written (absent ones absent), and no
comment. -/
theorem write_then_read (env : Env) (hnf : env.NoFailure) (filename : List Char)
    (hname : mp3_extension filename = true) (src : List Nat) (hsrc : src.length < 10)
    (data : TagData) (h : ∀ k t, data.get k = some t → 0 ∉ t ∧ t.length + 2 < 2 ^ 32) :
    ∃ file, write_id3_tags env filename (some src) data = .ret ⟨0, some file, none, false⟩ ∧
      read_id3_tags env filename (some file) = .ret (some { data with comment := none }) := by
  obtain ⟨b5, b6, b7, b8, b9, hw⟩ := write_short env hnf filename src hsrc data
    (fun k t hk => ⟨(h k t hk).1, by have := (h k t hk).2; omega⟩)
  refine ⟨_, hw, ?_⟩
  rw [read_complete env hnf filename [73, 68, 51, 3, 0, b5, b6, b7, b8, b9] rfl _
    (record_frames_complete data h), decode_record_frames data h]
  have : accepted_header [73, 68, 51, 3, 0, b5, b6, b7, b8, b9] filename = true := by
    simp only [accepted_header, hname, Bool.and_true]
    rfl
  rw [if_pos this]

theorem write_then_read_witness :
    ∃ file, write_id3_tags Env.ideal sample_name (some [1, 2, 3, 4, 5, 6, 7]) sample_record =
        .ret ⟨0, some file, none, false⟩ ∧
      read_id3_tags Env.ideal sample_name (some file) =
        .ret (some { sample_record with comment := none }) :=
  write_then_read Env.ideal ideal_no_failure sample_name (by decide) [1, 2, 3, 4, 5, 6, 7]
    (by decide) sample_record (by
      intro k t hk
      cases k <;> simp [sample_record, TagData.get] at hk <;> subst hk <;> decide)

/-- C4, evaluated at the failing input: the accepted file whose frame stream is the
single frame COMM with size 5 and payload 0x00 "Song" is read as a record all of whose
members, the comment included, are absent. -/
theorem comm_frame_not_stored :
    read_id3_tags Env.ideal sample_name
        (some (sample_header ++ (text_frame COMM [0, 0] text_Song).bytes)) =
      .ret (some TagData.empty) := by
  decide

/-- The reader maps the frame IDs TIT2, TPE1, TALB, TYER and TCON to title, artist, album,
year and genre: on an accepted file whose frame stream is one such frame with a payload of
one encoding byte and a NUL-free text, it returns the record whose only member present
is the one of that ID, equal to the text. -/
theorem single_frame_read (env : Env) (hnf : env.NoFailure) (filename : List Char)
    (header : List Nat) (hlen : header.length = 10)
    (hacc : accepted_header header filename = true) (k : Field) (hk : k ≠ Field.comment)
    (flags : List Nat) (hflags : flags.length = 2) (e : Nat) (text : List Nat)
    (h0 : 0 ∉ text) (hl : text.length + 2 < 2 ^ 32) :
    read_id3_tags env filename (some (header ++ (Frame.mk k.id flags (e :: text)).bytes)) =
      .ret (some (TagData.empty.set k (some text))) := by
  have hc : ∀ f ∈ [Frame.mk k.id flags (e :: text)], f.Complete := by
    intro f hf
    rw [List.mem_singleton] at hf
    subst hf
    exact ⟨k.id_length, hflags, by simp only [List.length_cons]; omega⟩
  have := read_complete env hnf filename header hlen [Frame.mk k.id flags (e :: text)] hc
  simp only [frame_stream, List.append_nil] at this
  rw [this, if_pos hacc, decode_text_frame TagData.empty k text h0 hl, if_neg hk]
  rfl

theorem single_frame_read_witness :
    read_id3_tags Env.ideal sample_name
        (some (sample_header ++ (Frame.mk TIT2 [0, 0] (0 :: text_Song)).bytes)) =
      .ret (some (TagData.empty.set Field.title (some text_Song))) :=
  single_frame_read Env.ideal ideal_no_failure sample_name sample_header rfl (by decide)
    Field.title (by decide) [0, 0] rfl 0 text_Song (by decide) (by decide)

/-- C5 (counterexample): on the accepted file with the complete frames TIT2 "Old" and
TIT2 "Two", editing TIT2 to "Hello" succeeds and rewrites the first frame, and reading
the committed file returns title "Two", not "Hello". -/
theorem edit_then_read_duplicate :
    read_id3_tags Env.ideal sample_name (some sample_duplicate) =
      .ret (some ⟨some text_Two, none, none, none, none, none⟩) ∧
    edit_tag Env.ideal sample_name (some sample_duplicate) TIT2 text_Hello =
      .ret ⟨0, some (sample_header ++ frame_stream
        [text_frame TIT2 [0, 0] text_Hello, text_frame TIT2 [0, 0] text_Two]), none, false⟩ ∧
    read_id3_tags Env.ideal sample_name (some (sample_header ++ frame_stream
        [text_frame TIT2 [0, 0] text_Hello, text_frame TIT2 [0, 0] text_Two])) =
      .ret (some ⟨some text_Two, none, none, none, none, none⟩) ∧
    some text_Two ≠ some text_Hello := by
  decide

/-- C5 (amended): when the reader returns a record `d` for a file that is not `temp.mp3`
and is made of a 10-byte header and complete frames exactly one of which has the ID of
the member `k`, one of title, artist, album, year, genre, and `v` is a NUL-free text,
then `edit_tag` with that ID and `v` returns 0 and commits a file on which the reader
returns a record whose member `k` is `v` and whose other members are those of `d`. -/
theorem edit_then_read (env : Env) (hnf : env.NoFailure) (filename : List Char)
    (hname : is_temp env filename = false)
    (header : List Nat) (hlen : header.length = 10) (fs : List Frame)
    (hc : ∀ f ∈ fs, f.Complete) (d : TagData)
    (hacc : read_id3_tags env filename (some (header ++ frame_stream fs)) = .ret (some d))
    (k : Field) (hk : k ≠ Field.comment)
    (hone : fs.countP (fun f => f.id == k.id) = 1)
    (v : List Nat) (h0 : 0 ∉ v) (hv : v.length + 2 < 2 ^ 32) :
    ∃ file d1,
      edit_tag env filename (some (header ++ frame_stream fs)) k.id v =
        .ret ⟨0, some file, none, false⟩ ∧
      read_id3_tags env filename (some file) = .ret (some d1) ∧
      d1.get k = some v ∧ ∀ j, j ≠ k → d1.get j = d.get j := by
  obtain ⟨hgate, hdec⟩ := accepted_of_read env hnf filename header hlen fs hc d hacc
  obtain ⟨d1, hd1, hk1, hj1⟩ := decode_edit_first k hk v h0 hv fs TagData.empty d hone hdec
  have hany := any_of_countP_one k.id fs hone
  have hedit := edit_tag_complete env hnf filename header hlen fs hc d hname hacc k.id v
    k.id_length (by cases k <;> decide)
    (fun _ => by rw [strlen_of_nul_free v h0]; omega)
  rw [cstr_of_nul_free v h0, hany] at hedit
  refine ⟨_, d1, hedit, ?_, hk1, hj1⟩
  rw [read_complete env hnf filename header hlen _
    (edit_first_complete k.id v (by omega) fs hc), if_pos hgate, hd1]

theorem edit_then_read_witness :
    ∃ file d1,
      edit_tag Env.ideal sample_name
          (some (sample_header ++ frame_stream
            [sample_other, text_frame TIT2 [64, 0] text_Old, text_frame TPE1 [0, 0] text_Two]))
          Field.title.id text_Hello =
        .ret ⟨0, some file, none, false⟩ ∧
      read_id3_tags Env.ideal sample_name (some file) = .ret (some d1) ∧
      d1.get Field.title = some text_Hello ∧
      ∀ j, j ≠ Field.title →
        d1.get j = (TagData.mk (some text_Old) (some text_Two) none none none none).get j :=
  edit_then_read Env.ideal ideal_no_failure sample_name (by decide) sample_header rfl
    [sample_other, text_frame TIT2 [64, 0] text_Old, text_frame TPE1 [0, 0] text_Two]
    (by decide) ⟨some text_Old, some text_Two, none, none, none, none⟩ (by decide)
    Field.title (by decide) (by decide) text_Hello (by decide) (by decide)

theorem read_frame_next_length (env : Env) (st st1 : ReadState)
    (h : read_frame env st = .next st1) : st1.rem.length + 4 ≤ st.rem.length := by
  unfold read_frame at h
  by_cases h4 : (st.rem.take 4).length ≠ 4
  · rw [if_pos h4] at h; cases h
  · rw [if_neg h4] at h
    have hlen : 4 ≤ st.rem.length := by
      rw [List.length_take] at h4; omega
    simp only at h
    repeat' split at h
    all_goals try cases h
    all_goals dsimp only
    all_goals simp only [List.length_drop]
    all_goals omega

theorem read_frame_stop (env : Env) (st : ReadState) (r : Outcome (Option TagData))
    (h : read_frame env st = .stop r) : r ≠ .nofuel := by
  unfold read_frame at h
  simp only at h
  repeat' split at h
  all_goals try cases h
  all_goals (intro hc; cases hc)

theorem read_frames_fuel (env : Env) :
    ∀ (fuel : Nat) (st : ReadState), st.rem.length < 4 * fuel →
      read_frames env fuel st ≠ .nofuel
  | 0, st, h => by omega
  | fuel + 1, st, h => by
    unfold read_frames
    cases hstep : read_frame env st with
    | stop r => exact read_frame_stop env st r hstep
    | next st1 =>
      have := read_frame_next_length env st st1 hstep
      exact read_frames_fuel env fuel st1 (by omega)

/-- The loop bound that `read_id3_tags` passes to its loop is never exhausted. -/
theorem read_id3_tags_fuel (env : Env) (filename : List Char) (file : Option (List Nat)) :
    read_id3_tags env filename file ≠ .nofuel := by
  unfold read_id3_tags
  cases file with
  | none => intro h; cases h
  | some bytes =>
    simp only
    split
    · intro h; cases h
    · unfold read_after_magic
      simp only
      split
      · repeat' split
        all_goals first
          | (intro h; cases h)
          | (apply read_frames_fuel
             simp only [List.length_drop]
             omega)
      · intro h; cases h

theorem edit_frame_next_length (env : Env) (tag value : List Nat) (st st1 : EditState)
    (h : edit_frame env tag value st = .next st1) : st1.rem.length + 4 ≤ st.rem.length := by
  unfold edit_frame at h
  by_cases h4 : (st.rem.take 4).length ≠ 4
  · rw [if_pos h4] at h; cases h
  · rw [if_neg h4] at h
    have hlen : 4 ≤ st.rem.length := by
      rw [List.length_take] at h4; omega
    simp only at h
    repeat' split at h
    all_goals try cases h
    all_goals dsimp only
    all_goals simp only [List.length_drop]
    all_goals omega

theorem edit_frame_stop (env : Env) (tag value : List Nat) (st : EditState) (r : EditStop)
    (h : edit_frame env tag value st = .stop r) : r ≠ .nofuel := by
  unfold edit_frame at h
  simp only at h
  repeat' split at h
  all_goals try cases h
  all_goals (intro hc; cases hc)

theorem edit_frames_fuel (env : Env) (tag value : List Nat) :
    ∀ (fuel : Nat) (st : EditState), st.rem.length < 4 * fuel →
      edit_frames env tag value fuel st ≠ .nofuel
  | 0, st, h => by omega
  | fuel + 1, st, h => by
    unfold edit_frames
    cases hstep : edit_frame env tag value st with
    | stop r => exact edit_frame_stop env tag value st r hstep
    | next st1 =>
      have := edit_frame_next_length env tag value st st1 hstep
      exact edit_frames_fuel env tag value fuel st1 (by omega)

/-- The loop bound that `edit_tag` passes to its loop is never exhausted. -/
theorem edit_tag_fuel (env : Env) (filename : List Char) (file : Option (List Nat))
    (tag value : List Nat) : edit_tag env filename file tag value ≠ .nofuel := by
  unfold edit_tag
  have hread := read_id3_tags_fuel env filename file
  split
  · rename_i h; exact absurd h hread
  · intro h; cases h
  · intro h; cases h
  · cases file with
    | none => intro h; cases h
    | some content =>
      simp only
      generalize source_after_temp env filename content = src
      split
      · intro h; cases h
      · split
        · intro h; cases h
        · split
          · rename_i h
            exact absurd h (edit_frames_fuel env tag value _ _ (by
              simp only [List.length_drop]; omega))
          · intro h; cases h
          · intro h; cases h
          · split <;> (intro h; cases h)

/-- The loop bound that `write_id3_tags` passes to its copy loop is never exhausted. -/
theorem write_id3_tags_fuel (env : Env) (filename : List Char) (file : Option (List Nat))
    (data : TagData) : write_id3_tags env filename file data ≠ .nofuel := by
  unfold write_id3_tags
  cases file with
  | none => intro h; cases h
  | some content =>
    simp only
    generalize source_after_temp env filename content = src
    split
    · intro h; cases h
    · rw [copy_rest_eq (src.length + 1) (src.drop 10) _ (by rw [List.length_drop]; omega)]
      simp only
      split <;> (intro h; cases h)


/-! ## The extension gate -/

theorem mp3_extension_iff (filename : List Char) :
    mp3_extension filename = true ↔ ∃ stem, filename = stem ++ ['.', 'm', 'p', '3'] := by
  unfold mp3_extension
  simp only [Bool.not_eq_true', Bool.or_eq_false_iff, decide_eq_false_iff_not, Nat.not_lt,
    bne_eq_false_iff_eq]
  constructor
  · rintro ⟨_, hd⟩
    refine ⟨filename.take (filename.length - 4), ?_⟩
    rw [← hd, List.take_append_drop]
  · rintro ⟨stem, rfl⟩
    refine ⟨by simp, ?_⟩
    have : (stem ++ ['.', 'm', 'p', '3']).length - 4 = stem.length := by simp
    rw [this, List.drop_left]

theorem read_after_version (env : Env) (filename : List Char) (rest : List Nat) :
    read_id3_tags env filename (some (73 :: 68 :: 51 :: 3 :: rest)) =
      if mp3_extension filename then
        if env.calloc then
          read_frames env ((73 :: 68 :: 51 :: 3 :: rest).length + 1)
            ⟨TagData.empty, List.replicate 4 none, List.replicate 2 none, rest.drop 6⟩
        else .ret none
      else .ret none := by
  rw [read_of_magic env filename (73 :: 68 :: 51 :: 3 :: rest) rfl]
  unfold read_after_magic
  cases mp3_extension filename <;> cases env.calloc <;> simp [overwrite]

/-- C11: on a file with the magic "ID3" and major version 3, `read_id3_tags` passes the file
name test exactly when the name ends in ".mp3" (so has at least 4 characters), the case
of the letters counting: it returns `NULL` for any other name, and for a name ending in
".mp3" it goes on to the allocation of the record and the frame loop. The test looks at
the name only: "a.MP3" and "mp3" fail it, ".mp3" and "a.mp3" pass it, whatever the
file holds. -/
theorem extension_gate (env : Env) (filename : List Char) (rest : List Nat) :
    (mp3_extension filename = true ↔
      4 ≤ filename.length ∧ ∃ stem, filename = stem ++ ['.', 'm', 'p', '3']) ∧
    ((¬ ∃ stem, filename = stem ++ ['.', 'm', 'p', '3']) →
      read_id3_tags env filename (some (73 :: 68 :: 51 :: 3 :: rest)) = .ret none) ∧
    ((∃ stem, filename = stem ++ ['.', 'm', 'p', '3']) →
      read_id3_tags env filename (some (73 :: 68 :: 51 :: 3 :: rest)) =
        if env.calloc then
          read_frames env ((73 :: 68 :: 51 :: 3 :: rest).length + 1)
            ⟨TagData.empty, List.replicate 4 none, List.replicate 2 none, rest.drop 6⟩
        else .ret none) ∧
    mp3_extension ['a', '.', 'M', 'P', '3'] = false ∧ mp3_extension ['m', 'p', '3'] = false ∧
    mp3_extension ['.', 'm', 'p', '3'] = true ∧ mp3_extension ['a', '.', 'm', 'p', '3'] = true := by
  refine ⟨?_, ?_, ?_, by decide, by decide, by decide, by decide⟩
  · rw [mp3_extension_iff]
    constructor
    · rintro ⟨stem, rfl⟩
      exact ⟨by simp, stem, rfl⟩
    · rintro ⟨_, h⟩; exact h
  · intro h
    have : mp3_extension filename = false := by
      rw [← Bool.not_eq_true, mp3_extension_iff]; exact h
    rw [read_after_version, this]; rfl
  · intro h
    rw [read_after_version, (mp3_extension_iff filename).mpr h]; rfl

theorem extension_gate_witness :
    read_id3_tags Env.ideal ['a', '.', 'M', 'P', '3']
      (some (73 :: 68 :: 51 :: 3 :: [0, 0, 0, 0, 0, 0])) = .ret none :=
  (extension_gate Env.ideal ['a', '.', 'M', 'P', '3'] [0, 0, 0, 0, 0, 0]).2.1 (by
    rintro ⟨stem, h⟩
    have := congrArg (fun l => l.drop (l.length - 4)) h
    simp at this)

/-! ## Zero-size frames, the pre-check of the editor, exit status -/

theorem decode_unreadable (f : Frame) (hf : f.readable = false) :
    ∀ (fs : List Frame) (d : TagData), f ∈ fs → decode d fs = none
  | [], _, h => by cases h
  | g :: fs, d, h => by
    unfold decode
    by_cases hg : g.readable = true
    · rw [if_pos hg]
      rcases List.mem_cons.mp h with rfl | h1
      · rw [hf] at hg; cases hg
      · exact decode_unreadable f hf fs _ h1
    · rw [if_neg hg]

/-- C12: on an accepted file (10-byte header with "ID3" and version 3, name ending in
".mp3") made of complete frames one of which is a TIT2 frame of declared size 0, when no
allocation fails, `read_id3_tags` does not return a record with an empty title: the
block of that frame has one cell and `strdup(frame_data + 1)` starts reading after it,
so the call reads outside the block. -/
theorem zero_size_title_undefined (env : Env) (hnf : env.NoFailure) (filename : List Char)
    (header : List Nat) (hlen : header.length = 10)
    (hacc : accepted_header header filename = true)
    (fs : List Frame) (hc : ∀ f ∈ fs, f.Complete) (flags : List Nat)
    (hz : ⟨TIT2, flags, []⟩ ∈ fs) :
    read_id3_tags env filename (some (header ++ frame_stream fs)) = .undefined := by
  rw [read_complete env hnf filename header hlen fs hc, if_pos hacc,
    decode_unreadable ⟨TIT2, flags, []⟩ rfl fs TagData.empty hz]

theorem zero_size_title_undefined_witness :
    read_id3_tags Env.ideal sample_name
      (some (sample_header ++ frame_stream [sample_other, sample_empty_title])) =
      .undefined :=
  zero_size_title_undefined Env.ideal ideal_no_failure sample_name sample_header rfl
    (by decide) [sample_other, sample_empty_title] (by decide) [0, 0] (by decide)

theorem edit_of_read_null (env : Env) (filename : List Char) (file : Option (List Nat))
    (tag value : List Nat) (h : read_id3_tags env filename file = .ret none) :
    edit_tag env filename file tag value = .ret ⟨1, file, none, false⟩ := by
  unfold edit_tag
  rw [h]

/-- C13: whenever `read_id3_tags` returns `NULL` for the file, `edit_tag` returns 1, the
file keeps its content and `temp.mp3` is neither created nor renamed; this is so when
the file cannot be opened, when its first 3 bytes are not "ID3", when its major version
byte is not 3 and when its name does not end in ".mp3". -/
theorem edit_rejected_file_untouched (env : Env) (filename : List Char)
    (tag value : List Nat) :
    (∀ file, read_id3_tags env filename file = .ret none →
      edit_tag env filename file tag value = .ret ⟨1, file, none, false⟩) ∧
    edit_tag env filename none tag value = .ret ⟨1, none, none, false⟩ ∧
    (∀ bytes, bytes.take 3 ≠ ID3 →
      edit_tag env filename (some bytes) tag value = .ret ⟨1, some bytes, none, false⟩) ∧
    (∀ v rest, v ≠ 3 →
      edit_tag env filename (some (73 :: 68 :: 51 :: v :: rest)) tag value =
        .ret ⟨1, some (73 :: 68 :: 51 :: v :: rest), none, false⟩) ∧
    (∀ rest, (¬ ∃ stem, filename = stem ++ ['.', 'm', 'p', '3']) →
      edit_tag env filename (some (73 :: 68 :: 51 :: 3 :: rest)) tag value =
        .ret ⟨1, some (73 :: 68 :: 51 :: 3 :: rest), none, false⟩) := by
  refine ⟨fun file h => edit_of_read_null env filename file tag value h, ?_, ?_, ?_, ?_⟩
  · exact edit_of_read_null env filename none tag value rfl
  · intro bytes h
    exact edit_of_read_null env filename _ tag value (read_of_no_magic env filename bytes h)
  · intro v rest hv
    apply edit_of_read_null
    rw [read_of_magic env filename (73 :: 68 :: 51 :: v :: rest) rfl]
    simp [read_after_magic, overwrite, hv]
  · intro rest h
    apply edit_of_read_null
    have : mp3_extension filename = false := by
      rw [← Bool.not_eq_true, mp3_extension_iff]; exact h
    rw [read_after_version, this]; rfl

theorem edit_rejected_file_untouched_witness :
    edit_tag Env.ideal sample_upper_name (some sample_duplicate) TIT2 text_Hello =
      .ret ⟨1, some sample_duplicate, none, false⟩ :=
  (edit_rejected_file_untouched Env.ideal sample_upper_name TIT2 text_Hello).1
    (some sample_duplicate) (by decide)

theorem view_tags_ret (env : Env) (filename : List Char) (file : Option (List Nat))
    (r : Option TagData) (h : read_id3_tags env filename file = .ret r) :
    view_tags env filename file = .ret () := by
  unfold view_tags
  rw [h]
  cases r <;> rfl

/-- C14: invoked as `-v <file>`, `main` returns exit status 0 whenever `read_id3_tags`
returns, be it a record or `NULL` (`view_tags` returns nothing to `main`); invoked as
`-e <flag> <value> <file>` with one of the six flags, it returns 0 when `edit_tag`
returns 0 and 1 when `edit_tag` returns another value. -/
theorem cli_exit_status (env : Env) (files : List Char → Option (List Nat))
    (prog file : List Char) :
    (∀ r, read_id3_tags env file (files file) = .ret r →
      main env files [prog, ['-', 'v'], file] = .ret 0) ∧
    (∀ flag value tag done, tag_option flag = some tag →
      edit_tag env file (files file) tag (value.map Char.toNat) = .ret done →
      main env files [prog, ['-', 'e'], flag, value, file] =
        .ret (if done.code = 0 then 0 else 1)) := by
  constructor
  · intro r h
    have hv := view_tags_ret env file (files file) r h
    simp [main, hv]
  · intro flag value tag done htag hedit
    simp only [main, List.length_cons, List.length_nil, List.getD_cons_succ,
      List.getD_cons_zero, htag, hedit]
    by_cases hcode : done.code = 0
    · simp [hcode]
    · simp [hcode]

theorem cli_exit_status_witness :
    read_id3_tags Env.ideal sample_name (no_files sample_name) = .ret none ∧
    main Env.ideal no_files [['m'], ['-', 'v'], sample_name] = .ret 0 :=
  ⟨by decide, (cli_exit_status Env.ideal no_files ['m'] sample_name).1 none (by decide)⟩

/-! ## The editor on a stream with a tail -/

/-- The editor on a 10-byte header, complete frames and a tail of fewer than 4 bytes: the
tail is read as the start of a frame ID and not written. -/
theorem edit_tag_tail (env : Env) (hnf : env.NoFailure) (filename : List Char)
    (header : List Nat) (hlen : header.length = 10) (fs : List Frame)
    (hname : is_temp env filename = false)
    (hc : ∀ f ∈ fs, f.Complete) (tail : List Nat) (ht : tail.length < 4) (d : TagData)
    (hacc : read_id3_tags env filename (some (header ++ (frame_stream fs ++ tail))) =
      .ret (some d))
    (tag value : List Nat) (htag : tag.length = 4) (h0 : 0 ∉ tag)
    (hv : fs.any (fun f => f.id == tag) = true → strlen value + 1 < 2 ^ 32) :
    edit_tag env filename (some (header ++ (frame_stream fs ++ tail))) tag value =
      .ret ⟨0, some (header ++ frame_stream (edit_first tag (cstr value) fs)), none,
        !(fs.any (fun f => f.id == tag))⟩ := by
  obtain ⟨hm, _, htemp, hren⟩ := hnf
  obtain ⟨sb1, fb1, h⟩ := edit_frames_complete env hm tag value htag h0 fs
    ((header ++ (frame_stream fs ++ tail)).length + 1) (List.replicate 4 none)
    (List.replicate 2 none) false header tail hc rfl rfl ht (by
      have := frame_stream_length fs
      simp only [List.length_append]; omega) (fun _ => hv)
  unfold edit_tag
  rw [hacc]
  simp only [htemp, hren, Bool.not_true, Bool.false_eq_true, if_false,
    source_of_not_temp env filename _ hname,
    header_block header _ hlen, List.drop_left' hlen, h, Bool.false_or]

theorem any_false_of_absent (tag : List Nat) (fs : List Frame)
    (habs : ∀ f ∈ fs, f.id ≠ tag) : fs.any (fun f => f.id == tag) = false := by
  rw [List.any_eq_false]
  intro f hf
  simpa using habs f hf

/-- C15: when the reader accepts a file made of a 10-byte header, complete frames none of
which has the ID `tag`, and a tail of 1 to 3 bytes, `edit_tag` returns 0, prints that the
tag was not found and commits the header and the frames without the tail: the committed
file is shorter than the original, not identical to it.  When the file is `temp.mp3`
itself the editor has emptied it before reading and commits cells of its header buffer
that were never filled: in neither case is the original committed. -/
theorem edit_drops_tail (env : Env) (hnf : env.NoFailure) (filename : List Char)
    (header : List Nat) (hlen : header.length = 10) (fs : List Frame)
    (hc : ∀ f ∈ fs, f.Complete) (tail : List Nat) (ht : tail.length < 4)
    (hne : tail ≠ []) (d : TagData)
    (hacc : read_id3_tags env filename (some (header ++ (frame_stream fs ++ tail))) =
      .ret (some d))
    (tag value : List Nat) (htag : tag.length = 4) (h0 : 0 ∉ tag)
    (habs : ∀ f ∈ fs, f.id ≠ tag) :
    edit_tag env filename (some (header ++ (frame_stream fs ++ tail))) tag value =
      (if is_temp env filename then .undefined
       else .ret ⟨0, some (header ++ frame_stream fs), none, true⟩) ∧
    header ++ frame_stream fs ≠ header ++ (frame_stream fs ++ tail) := by
  have hany := any_false_of_absent tag fs habs
  refine ⟨?_, ?_⟩
  · cases hname : is_temp env filename with
    | true =>
      rw [if_pos rfl]
      exact edit_tag_on_temp env hnf.2.2.1 filename hname _ d hacc tag value
    | false =>
      have h := edit_tag_tail env hnf filename header hlen fs hname hc tail ht d hacc tag
        value htag h0 (fun h => by rw [hany] at h; cases h)
      rw [edit_first_modified tag (cstr value) fs hany, hany] at h
      rw [if_neg (by decide)]
      exact h
  intro heq
  have hl := congrArg List.length heq
  simp only [List.length_append] at hl
  have : tail.length = 0 := by omega
  exact hne (List.length_eq_zero.mp this)

theorem edit_drops_tail_witness :
    edit_tag Env.ideal sample_name
        (some (sample_header ++ (frame_stream [sample_other] ++ [7, 9]))) TIT2 text_Hello =
      .ret ⟨0, some (sample_header ++ frame_stream [sample_other]), none, true⟩ ∧
    sample_header ++ frame_stream [sample_other] ≠
      sample_header ++ (frame_stream [sample_other] ++ [7, 9]) :=
  edit_drops_tail Env.ideal ideal_no_failure sample_name sample_header rfl [sample_other]
    (by decide) [7, 9] (by decide) (by decide) TagData.empty (by decide) TIT2 text_Hello rfl
    (by decide) (by decide)

/-- A tail of 4 bytes after the last complete frame is taken for a frame ID: the editor
goes on with the size and flag bytes left in its buffers by the frame before and writes
a frame header the file never held, so the committed file is longer than the original. -/
theorem edit_grows_after_short_frame :
    read_id3_tags Env.ideal sample_name
        (some (sample_header ++ (frame_stream [sample_empty_other] ++ [65, 66, 67, 68]))) =
      .ret (some TagData.empty) ∧
    edit_tag Env.ideal sample_name
        (some (sample_header ++ (frame_stream [sample_empty_other] ++ [65, 66, 67, 68])))
        TIT2 text_Hello =
      .ret ⟨0, some (sample_header ++ frame_stream [sample_empty_other] ++
        [65, 66, 67, 68, 0, 0, 0, 0, 1, 2]), none, true⟩ := by
  decide

/-! ## The last frame of an ID wins -/

theorem decoded_field_eq_iff (id : List Nat) (k : Field) (hk : k ≠ Field.comment) :
    decoded_field id = some k ↔ id = k.id := by
  constructor
  · exact id_of_decoded_field id k
  · intro h; rw [h, decoded_field_id, if_neg hk]

/-- Last frame wins: after a sequence of frames a member the reader stores holds the text
of the last frame with its ID, or what it held before when there is no such frame. -/
theorem decode_last (k : Field) (hk : k ≠ Field.comment) :
    ∀ (fs : List Frame) (d d1 : TagData), decode d fs = some d1 →
      d1.get k = (last_text k.id fs).or (d.get k)
  | [], d, d1, h => by
    simp only [decode, Option.some.injEq] at h
    rw [← h]; rfl
  | f :: fs, d, d1, h => by
    obtain ⟨_, h1⟩ := decode_cons_some d d1 f fs h
    rw [decode_last k hk fs (apply_frame d f) d1 h1, apply_frame_get]
    simp only [last_text]
    cases last_text k.id fs with
    | some t => rfl
    | none =>
      simp only [Option.none_or]
      by_cases hid : f.id = k.id
      · rw [if_pos ((decoded_field_eq_iff f.id k hk).mpr hid), if_pos hid]; rfl
      · rw [if_neg (fun e => hid ((decoded_field_eq_iff f.id k hk).mp e)), if_neg hid]; rfl

theorem decode_comment :
    ∀ (fs : List Frame) (d d1 : TagData), decode d fs = some d1 → d1.comment = d.comment
  | [], d, d1, h => by
    simp only [decode, Option.some.injEq] at h
    rw [← h]
  | f :: fs, d, d1, h => by
    obtain ⟨_, h1⟩ := decode_cons_some d d1 f fs h
    rw [decode_comment fs (apply_frame d f) d1 h1]
    have := apply_frame_get d f Field.comment
    have hn : decoded_field f.id ≠ some Field.comment := by
      intro e
      have := id_of_decoded_field f.id Field.comment e
      rw [this] at e
      revert e
      decide
    rw [if_neg hn] at this
    exact this

theorem decode_readable :
    ∀ (fs : List Frame) (d : TagData), (∀ f ∈ fs, f.readable = true) →
      ∃ d1, decode d fs = some d1
  | [], d, _ => ⟨d, rfl⟩
  | f :: fs, d, h => by
    obtain ⟨d1, h1⟩ := decode_readable fs (apply_frame d f)
      (fun g hg => h g (List.mem_cons_of_mem f hg))
    refine ⟨d1, ?_⟩
    simp only [decode, h f (List.mem_cons_self f fs), if_true, h1]

theorem readable_of_decode :
    ∀ (fs : List Frame) (d d1 : TagData), decode d fs = some d1 →
      ∀ f ∈ fs, f.readable = true
  | [], _, _, _ => by intro f hf; cases hf
  | g :: fs, d, d1, h => by
    obtain ⟨hr, h1⟩ := decode_cons_some d d1 g fs h
    intro f hf
    rcases List.mem_cons.mp hf with rfl | hf
    · exact hr
    · exact readable_of_decode fs _ d1 h1 f hf

theorem decode_append (as bs : List Frame) :
    ∀ (d : TagData), decode d (as ++ bs) =
      match decode d as with
      | some d1 => decode d1 bs
      | none => none := by
  induction as with
  | nil => intro d; rfl
  | cons a as ih =>
    intro d
    rw [List.cons_append]
    simp only [decode]
    by_cases hr : a.readable = true
    · simp only [hr, if_true]; exact ih _
    · simp only [hr, if_false, Bool.false_eq_true]

/-! ## Last-write-wins and unrecognized frames -/

/-- C16 (counterexample): the accepted file whose only frame is TIT2 with the payload
00 "A" 00 "B" is read as title "A", not as the payload from offset 1, "A" 00 "B". -/
theorem title_stops_at_nul :
    read_id3_tags Env.ideal sample_name
        (some (sample_header ++ frame_stream [sample_nul_title])) =
      .ret (some ⟨some [65], none, none, none, none, none⟩) ∧
    sample_nul_title.Complete ∧ sample_nul_title.payload ≠ [] ∧
    some [65] ≠ some (sample_nul_title.payload.drop 1) := by
  decide

/-- C16 (amended): on an accepted file (10-byte header with "ID3" and version 3, name
ending in ".mp3") whose frame stream is a sequence of complete frames with non-empty
payloads, `read_id3_tags` returns a record in which each of title, artist, album, year
and genre is the text of the last frame with the ID of that member, the text being the
payload from offset 1 up to its first NUL, and is absent when no frame has that ID. -/
theorem reader_last_wins (env : Env) (hnf : env.NoFailure) (filename : List Char)
    (header : List Nat) (hlen : header.length = 10)
    (hgate : accepted_header header filename = true) (fs : List Frame)
    (hc : ∀ f ∈ fs, f.Complete ∧ f.payload ≠ [] ∧ f.payload.length + 1 < 2 ^ 32) :
    ∃ d, read_id3_tags env filename (some (header ++ frame_stream fs)) = .ret (some d) ∧
      ∀ k, k ≠ Field.comment → d.get k = last_text k.id fs := by
  have hr : ∀ f ∈ fs, f.readable = true := by
    intro f hf
    obtain ⟨_, hne, hl⟩ := hc f hf
    simp only [Frame.readable, Bool.and_eq_true, decide_eq_true_eq, Bool.or_eq_true,
      bne_iff_ne, ne_eq]
    exact ⟨hl, Or.inr hne⟩
  obtain ⟨d, hd⟩ := decode_readable fs TagData.empty hr
  refine ⟨d, ?_, ?_⟩
  · rw [read_complete env hnf filename header hlen fs (fun f hf => (hc f hf).1),
      if_pos hgate, hd]
  · intro k hk
    rw [decode_last k hk fs TagData.empty d hd]
    cases k <;> simp [TagData.get, TagData.empty]

theorem reader_last_wins_witness :
    ∃ d, read_id3_tags Env.ideal sample_name
        (some (sample_header ++ frame_stream sample_frames)) = .ret (some d) ∧
      ∀ k, k ≠ Field.comment → d.get k = last_text k.id sample_frames :=
  reader_last_wins Env.ideal ideal_no_failure sample_name sample_header rfl (by decide)
    sample_frames (by decide)

theorem decoded_none_of_unrecognized (id : List Nat) (h : is_recognized id = false) :
    decoded_field id = none := by
  unfold is_recognized recognized at h
  simp only [List.contains_eq_any_beq, List.any_cons, List.any_nil, Bool.or_false,
    Bool.or_eq_false_iff, beq_eq_false_iff_ne, ne_eq] at h
  obtain ⟨h1, h2, h3, h4, h5, _⟩ := h
  unfold decoded_field
  rw [if_neg h1, if_neg h2, if_neg h3, if_neg h4, if_neg h5]

theorem apply_unrecognized (d : TagData) (f : Frame) (h : is_recognized f.id = false) :
    apply_frame d f = d := by
  unfold apply_frame
  rw [decoded_none_of_unrecognized f.id h]

theorem decode_filter_recognized :
    ∀ (fs : List Frame) (d d1 : TagData), decode d fs = some d1 →
      decode d (fs.filter (fun f => is_recognized f.id)) = some d1
  | [], d, d1, h => h
  | f :: fs, d, d1, h => by
    obtain ⟨hr, h1⟩ := decode_cons_some d d1 f fs h
    by_cases hrec : is_recognized f.id = true
    · simp only [List.filter_cons, hrec, if_true, decode, hr]
      exact decode_filter_recognized fs _ d1 h1
    · have hf : is_recognized f.id = false := by simpa using hrec
      simp only [List.filter_cons, hf, Bool.false_eq_true, if_false]
      rw [apply_unrecognized d f hf] at h1
      exact decode_filter_recognized fs d d1 h1

theorem filter_complete (p : Frame → Bool) (fs : List Frame) (hc : ∀ f ∈ fs, f.Complete) :
    ∀ f ∈ fs.filter p, f.Complete :=
  fun f hf => hc f (List.mem_filter.mp hf).1

/-- C17: when `read_id3_tags` returns a record for a file made of a 10-byte header and
complete frames, it returns the same record for the file in which every frame whose ID is
not one of TIT2, TPE1, TALB, TYER, TCON, COMM is deleted; and when no frame of the file
has one of these IDs, every member of the record is absent. -/
theorem reader_skips_unrecognized (env : Env) (hnf : env.NoFailure) (filename : List Char)
    (header : List Nat) (hlen : header.length = 10) (fs : List Frame)
    (hc : ∀ f ∈ fs, f.Complete) (d : TagData)
    (hacc : read_id3_tags env filename (some (header ++ frame_stream fs)) = .ret (some d)) :
    read_id3_tags env filename
        (some (header ++ frame_stream (fs.filter (fun f => is_recognized f.id)))) =
      .ret (some d) ∧
    ((∀ f ∈ fs, is_recognized f.id = false) → d = TagData.empty) := by
  obtain ⟨hgate, hdec⟩ := accepted_of_read env hnf filename header hlen fs hc d hacc
  have hfil := decode_filter_recognized fs TagData.empty d hdec
  refine ⟨?_, ?_⟩
  · rw [read_complete env hnf filename header hlen _ (filter_complete _ fs hc),
      if_pos hgate, hfil]
  · intro hnone
    have hnil : fs.filter (fun f => is_recognized f.id) = [] := by
      rw [List.filter_eq_nil_iff]
      intro f hf
      rw [hnone f hf]
      decide
    rw [hnil] at hfil
    simp only [decode, Option.some.injEq] at hfil
    exact hfil.symm

theorem reader_skips_unrecognized_witness :
    read_id3_tags Env.ideal sample_name
        (some (sample_header ++
          frame_stream (sample_frames.filter (fun f => is_recognized f.id)))) =
      .ret (some ⟨some text_Two, some text_Two, none, none, none, none⟩) ∧
    ((∀ f ∈ sample_frames, is_recognized f.id = false) →
      (⟨some text_Two, some text_Two, none, none, none, none⟩ : TagData) = TagData.empty) :=
  reader_skips_unrecognized Env.ideal ideal_no_failure sample_name sample_header rfl
    sample_frames (by decide) ⟨some text_Two, some text_Two, none, none, none, none⟩
    (by decide)

/-! ## The header written for a short source -/

theorem short_header_exact (src : List Nat) (hsrc : src.length < 10) :
    overwrite (overwrite (List.replicate 10 0) (src.take 10)) [73, 68, 51, 3, 0] =
      [73, 68, 51, 3, 0] ++ overwrite (List.replicate 5 0) (src.drop 5) := by
  match src, hsrc with
  | [], _ => rfl
  | [_], _ => rfl
  | [_, _], _ => rfl
  | [_, _, _], _ => rfl
  | [_, _, _, _], _ => rfl
  | [_, _, _, _, _], _ => rfl
  | [_, _, _, _, _, _], _ => rfl
  | [_, _, _, _, _, _, _], _ => rfl
  | [_, _, _, _, _, _, _, _], _ => rfl
  | [_, _, _, _, _, _, _, _, _], _ => rfl
  | _ :: _ :: _ :: _ :: _ :: _ :: _ :: _ :: _ :: _ :: _, h =>
    exact absurd h (by simp only [List.length_cons]; omega)

/-- The `for` loop of `write_id3_tags` only appends to what is written already. -/
theorem write_frames_appends (data : TagData) (out : List Nat) :
    ∃ more, write_frames data out = out ++ more := by
  unfold write_frames
  generalize frames data = l
  induction l generalizing out with
  | nil => exact ⟨[], by simp⟩
  | cons fr l ih =>
    rw [List.foldl_cons]
    cases h : fr.2 with
    | none => exact ih out
    | some value =>
      obtain ⟨more, hm⟩ := ih (out ++ write_frame fr.1 value)
      exact ⟨write_frame fr.1 value ++ more, by rw [hm, List.append_assoc]⟩

/-- C18: for a source shorter than 10 bytes and any record, when `temp.mp3` can be created
and renamed, `write_id3_tags` returns 0 and commits a file that starts with 'I', 'D', '3',
3, 0 and then the five bytes of the header buffer, which are the source bytes from offset
5 on followed by zeros: for a source of at most 5 bytes the ten bytes are those of a
fresh header, for a longer one bytes 5 to 8 are source bytes.  The source bytes are those
the writer reads after it has opened `temp.mp3`, none when the source is that file. -/
theorem short_source_header (env : Env) (hnf : env.NoFailure) (filename : List Char)
    (content : List Nat) (hcontent : content.length < 10) (data : TagData) :
    (∃ more, write_id3_tags env filename (some content) data =
      .ret ⟨0, some ([73, 68, 51, 3, 0] ++
        overwrite (List.replicate 5 0) ((source_after_temp env filename content).drop 5) ++
        more), none, false⟩) ∧
    (content.length ≤ 5 →
      [73, 68, 51, 3, 0] ++
          overwrite (List.replicate 5 0) ((source_after_temp env filename content).drop 5) =
        [73, 68, 51, 3, 0, 0, 0, 0, 0, 0]) := by
  obtain ⟨_, _, htemp, hren⟩ := hnf
  have hle := source_length_le env filename content
  unfold write_id3_tags
  dsimp only
  generalize source_after_temp env filename content = src at hle ⊢
  have hsrc : src.length < 10 := by omega
  constructor
  · obtain ⟨more, hmore⟩ := write_frames_appends data
      ([73, 68, 51, 3, 0] ++ overwrite (List.replicate 5 0) (src.drop 5))
    refine ⟨more, ?_⟩
    have h10 : (src.take 10).length ≠ 10 := by rw [List.length_take]; omega
    have hd : src.drop 10 = [] := List.drop_of_length_le (by omega)
    have hcopy := copy_rest_eq (src.length + 1) []
      ([73, 68, 51, 3, 0] ++ overwrite (List.replicate 5 0) (src.drop 5) ++ more) (by simp)
    simp only [htemp, hren, Bool.not_true, Bool.false_eq_true, if_false, h10, ne_eq,
      not_false_eq_true, if_true, short_header_exact src hsrc, hd, hmore, hcopy,
      List.append_nil]
  · intro h5
    rw [List.drop_of_length_le (by omega)]
    rfl

theorem short_source_header_witness :
    (∃ more, write_id3_tags Env.ideal sample_name (some [1, 2, 3, 4, 5, 6, 7])
        sample_record =
      .ret ⟨0, some ([73, 68, 51, 3, 0] ++
        overwrite (List.replicate 5 0) ([1, 2, 3, 4, 5, 6, 7].drop 5) ++ more),
        none, false⟩) ∧
    ([1, 2, 3, 4, 5, 6, 7].length ≤ 5 →
      [73, 68, 51, 3, 0] ++ overwrite (List.replicate 5 0) ([1, 2, 3, 4, 5, 6, 7].drop 5) =
        [73, 68, 51, 3, 0, 0, 0, 0, 0, 0]) :=
  short_source_header Env.ideal ideal_no_failure sample_name [1, 2, 3, 4, 5, 6, 7]
    (by decide) sample_record

/-- The header `write_id3_tags` commits for the 7-byte source 1 2 3 4 5 6 7 and the record
with no member: 'I', 'D', '3', 3, 0, 6, 7, 0, 0, 0. -/
theorem short_source_header_example :
    write_id3_tags Env.ideal sample_name (some [1, 2, 3, 4, 5, 6, 7]) TagData.empty =
      .ret ⟨0, some [73, 68, 51, 3, 0, 6, 7, 0, 0, 0], none, false⟩ := by
  decide

/-! ## Writing over a tagged file, successive edits -/

/-- C19 (counterexample): the accepted file with the complete frames TIT2 "Old" and TIT2
"Two" holds a TIT2 frame with the text "Old"; writing the record with title "Hello" and
reading the committed file returns the title "Two", not "Old". -/
theorem write_then_read_old_duplicate :
    text_frame TIT2 [0, 0] text_Old ∈
      [text_frame TIT2 [0, 0] text_Old, text_frame TIT2 [0, 0] text_Two] ∧
    write_id3_tags Env.ideal sample_name (some sample_duplicate) sample_title_record =
      .ret ⟨0, some (sample_header ++ frame_stream
        [text_frame TIT2 [0, 0] text_Hello, text_frame TIT2 [0, 0] text_Old,
         text_frame TIT2 [0, 0] text_Two]), none, false⟩ ∧
    read_id3_tags Env.ideal sample_name (some (sample_header ++ frame_stream
        [text_frame TIT2 [0, 0] text_Hello, text_frame TIT2 [0, 0] text_Old,
         text_frame TIT2 [0, 0] text_Two])) =
      .ret (some ⟨some text_Two, none, none, none, none, none⟩) ∧
    some text_Two ≠ some text_Old := by
  decide

/-- C19 (amended): when `read_id3_tags` returns a record for a file that is not
`temp.mp3` and is made of a 10-byte
header and complete frames, and a record of NUL-free texts is written to that file, then
`write_id3_tags` returns 0 and reading the committed file returns a record in which each
of title, artist, album, year and genre is the text `old` of the last pre-existing frame
with the ID of that member, when there is one: the frames of the file follow the written
ones and win. -/
theorem write_keeps_last_frames (env : Env) (hnf : env.NoFailure) (filename : List Char)
    (hname : is_temp env filename = false)
    (header : List Nat) (hlen : header.length = 10) (fs : List Frame)
    (hc : ∀ f ∈ fs, f.Complete) (d : TagData)
    (hacc : read_id3_tags env filename (some (header ++ frame_stream fs)) = .ret (some d))
    (data : TagData) (hdata : ∀ k t, data.get k = some t → 0 ∉ t ∧ t.length + 2 < 2 ^ 32) :
    ∃ file d1,
      write_id3_tags env filename (some (header ++ frame_stream fs)) data =
        .ret ⟨0, some file, none, false⟩ ∧
      read_id3_tags env filename (some file) = .ret (some d1) ∧
      ∀ k old, k ≠ Field.comment → last_text k.id fs = some old →
        d1.get k = some old ∧ d.get k = some old := by
  obtain ⟨hgate, hdec⟩ := accepted_of_read env hnf filename header hlen fs hc d hacc
  have hw := write_long env hnf filename hname (header ++ frame_stream fs)
    (by rw [List.length_append]; omega) data
    (fun k t hk => ⟨(hdata k t hk).1, by have := (hdata k t hk).2; omega⟩)
  rw [List.take_left' hlen, List.drop_left' hlen, List.append_assoc,
    ← frame_stream_append] at hw
  obtain ⟨d1, hd1⟩ := decode_readable fs { data with comment := none }
    (readable_of_decode fs TagData.empty d hdec)
  have hall : decode TagData.empty (record_frames data ++ fs) = some d1 := by
    rw [decode_append, decode_record_frames data hdata]
    exact hd1
  have hcall : ∀ f ∈ record_frames data ++ fs, f.Complete := by
    intro f hf
    rcases List.mem_append.mp hf with h | h
    · exact record_frames_complete data hdata f h
    · exact hc f h
  refine ⟨_, d1, hw, ?_, ?_⟩
  · rw [read_complete env hnf filename header hlen _ hcall, if_pos hgate, hall]
  · intro k old hk hlast
    rw [decode_last k hk fs _ d1 hd1, decode_last k hk fs _ d hdec, hlast]
    exact ⟨rfl, rfl⟩

theorem write_keeps_last_frames_witness :
    ∃ file d1,
      write_id3_tags Env.ideal sample_name
          (some (sample_header ++ frame_stream sample_frames)) sample_record =
        .ret ⟨0, some file, none, false⟩ ∧
      read_id3_tags Env.ideal sample_name (some file) = .ret (some d1) ∧
      ∀ k old, k ≠ Field.comment → last_text k.id sample_frames = some old →
        d1.get k = some old ∧
        (TagData.mk (some text_Two) (some text_Two) none none none none).get k = some old :=
  write_keeps_last_frames Env.ideal ideal_no_failure sample_name (by decide)
    sample_header rfl sample_frames (by decide) ⟨some text_Two, some text_Two, none, none, none, none⟩
    (by decide) sample_record (by
      intro k t hk
      cases k <;> simp [sample_record, TagData.get] at hk <;> subst hk <;> decide)

/-- On the file `temp.mp3` holding a header and the frame TIT2 "Old", which the reader
accepts, `edit_tag` with TIT2 and "Hello" commits cells of its header buffer that were
never filled: no title "Hello" can be read back. -/
theorem edit_single_frame_on_temp :
    read_id3_tags Env.ideal temp_name
        (some (sample_header ++ frame_stream [text_frame TIT2 [0, 0] text_Old])) =
      .ret (some ⟨some text_Old, none, none, none, none, none⟩) ∧
    edit_tag Env.ideal temp_name
        (some (sample_header ++ frame_stream [text_frame TIT2 [0, 0] text_Old]))
        TIT2 text_Hello = .undefined := by
  decide

/-- On the file `temp.mp3` holding a header and the frame TIT2 "Old", `write_id3_tags`
with the title "Hello" commits a fresh header and the frame TIT2 "Hello" only: the old
frame is lost and the title read back is "Hello", not "Old". -/
theorem write_single_frame_on_temp :
    write_id3_tags Env.ideal temp_name
        (some (sample_header ++ frame_stream [text_frame TIT2 [0, 0] text_Old]))
        sample_title_record =
      .ret ⟨0, some (sample_header ++ frame_stream [text_frame TIT2 [0, 0] text_Hello]),
        none, false⟩ ∧
    read_id3_tags Env.ideal temp_name
        (some (sample_header ++ frame_stream [text_frame TIT2 [0, 0] text_Hello])) =
      .ret (some ⟨some text_Hello, none, none, none, none, none⟩) := by
  decide

/-- After a TIT2 frame of size 0 in a file whose header passes the three gates, the
reader run by `edit_tag` reads outside the block it allocated: neither the reader nor
the editor has a defined outcome, whatever tag is edited. -/
theorem edit_after_empty_stored_frame :
    accepted_header sample_header sample_name = true ∧
    (∀ f ∈ [sample_empty_title], f.Complete ∧ f.id ≠ TALB) ∧
    read_id3_tags Env.ideal sample_name
        (some (sample_header ++ frame_stream [sample_empty_title])) = .undefined ∧
    edit_tag Env.ideal sample_name
        (some (sample_header ++ frame_stream [sample_empty_title])) TALB text_Hello =
      .undefined := by
  decide

end Mp3TagReader
